import Mathlib

/-
Verification of the SimpleLang interpreter (Go sources: internal/lexer,
internal/parser, internal/ast, internal/types, internal/interpreter).

Modelling conventions.
* The Go lexer indexes raw bytes of the input (`l.input[l.position]` cast to a
  rune), so only code points 0..255 ever reach the character classifiers.  We
  model the input as `List Char` and the classifiers `unicode.IsDigit/IsLetter/
  IsSpace` by their exact restriction to code points below 256 (the Latin-1
  tables).  Theorems quantifying over characters restrict to that range.
* Go `float64` number payloads are modelled as `ℚ`.  Every numeric value
  exercised by the claims is a small integer, where float64 arithmetic
  (+, -, *, /, comparisons, +1 stepping) agrees exactly with ℚ.
* `fmt.Sprintf "%g"` (the canonical display of numbers) is modelled exactly for
  integral values - the only numbers the claims print; non-integral rationals
  are rendered as `num/den`, which is not bit-matched to Go's shortest-decimal
  form but is never relied upon by a theorem.
* The lexer position cursor is represented by the remaining input suffix
  (Go's `l.position` equals original length minus remaining length); `line` and
  `column` are threaded exactly as the Go code updates them.
* Go's mutable `Environment` chain (child frame -> parent pointer) becomes a
  `List Frame`, innermost frame first.  Every write in the Go code targets the
  innermost frame (`SetVariable`/`SetFunction` on `i.environment`), so
  restoring `i.environment = oldEnv` after a loop or call is modelled by
  dropping the innermost frame.
* The parser and evaluator use explicit fuel for totality; the parser's fuel is
  fixed to a bound proved sufficient (`Parse` never returns `timeout`), the
  evaluator's fuel is a parameter since the language permits unbounded
  recursion through function calls.
-/

attribute [local semireducible] Rat.add Rat.sub Rat.mul Rat.inv Rat.ofScientific

set_option maxRecDepth 10000

namespace SimpleLang

/-! ## Lexer: tokens (internal/lexer, `TokenType`, `Token`) -/

/-- Mirrors the Go `TokenType` enumeration. -/
inductive TokenType where
  | eof | error
  | number | text | boolean
  | identifier
  | numberKeyword | textKeyword | booleanKeyword
  | kwFunction | kwIf | kwThen | kwElse | kwEnd | kwLoop | kwFrom | kwTo | kwPrint
  | plus | minus | multiply | divide
  | assign | equal | notEqual | lessThan | lessEqual | greaterThan | greaterEqual
  | andOp | orOp | notOp
  | leftParen | rightParen | leftBrace | rightBrace | comma | semicolon | colon
  deriving DecidableEq, Repr

/-- Mirrors the Go `interface{}` literal payload of a token: nil, a string, or a
boolean. -/
inductive GoLit where
  | null
  | str (s : String)
  | bool (b : Bool)
  deriving DecidableEq, Repr

/-- Mirrors the Go `Token` record `{Type, Value, Line, Column, Literal}`. -/
structure Token where
  type : TokenType
  value : String
  line : Nat
  column : Nat
  literal : GoLit
  deriving DecidableEq, Repr

/-! ## Lexer: character classes

The Go code applies `unicode.IsDigit`, `unicode.IsLetter`, `unicode.IsSpace`
to `rune(l.input[l.position])`, a single byte, so only code points 0..255
occur.  The definitions below are the exact restrictions of those predicates
to that range (Latin-1). -/

/-- Restriction of Go `unicode.IsDigit` to code points below 256: the ASCII
digits. -/
def goIsDigit (c : Char) : Bool :=
  '0' ≤ c && c ≤ '9'

/-- Restriction of Go `unicode.IsLetter` to code points below 256: ASCII
letters plus the Latin-1 letters U+00AA, U+00B5, U+00BA, U+00C0-U+00D6,
U+00D8-U+00F6, U+00F8-U+00FF. -/
def goIsLetter (c : Char) : Bool :=
  ('a' ≤ c && c ≤ 'z') || ('A' ≤ c && c ≤ 'Z') ||
  c.toNat = 0xAA || c.toNat = 0xB5 || c.toNat = 0xBA ||
  (0xC0 ≤ c.toNat && c.toNat ≤ 0xD6) ||
  (0xD8 ≤ c.toNat && c.toNat ≤ 0xF6) ||
  (0xF8 ≤ c.toNat && c.toNat ≤ 0xFF)

/-- Restriction of Go `unicode.IsSpace` to code points below 256:
tab, LF, VT, FF, CR, space, NEL (U+0085) and NBSP (U+00A0). -/
def goIsSpace (c : Char) : Bool :=
  c = ' ' || c = '\t' || c = '\n' || c.toNat = 11 || c.toNat = 12 ||
  c = '\r' || c.toNat = 0x85 || c.toNat = 0xA0

/-! ## Lexer: state and scanning (internal/lexer, `Lexer`) -/

/-- Lexer cursor state.  Go keeps `(input, position, line, column)`; we keep
the remaining suffix `input[position:]` together with `line` and `column`. -/
structure LexState where
  remaining : List Char
  line : Nat
  column : Nat
  deriving Repr

/-- Mirrors Go `currentChar`: the byte at the cursor, or rune 0 past the end. -/
def currentChar (st : LexState) : Char :=
  match st.remaining with
  | [] => Char.ofNat 0
  | c :: _ => c

/-- Mirrors Go `advance`: `position++`, `column++`. -/
def advanceSt (st : LexState) : LexState :=
  { st with remaining := st.remaining.tail, column := st.column + 1 }

/-- Mirrors Go `skipWhitespace`: while the current character is whitespace, on
a newline do `line++; column = 1`, otherwise `column++`; in both cases then
call `advance` (which increments `column` again - so a skipped space moves the
column by 2, and the character after a newline gets column 2). -/
def skipWsGo : List Char → Nat → Nat → LexState
  | [], line, col => ⟨[], line, col⟩
  | c :: rest, line, col =>
    if goIsSpace c then
      if c = '\n' then
        skipWsGo rest (line + 1) (1 + 1)
      else
        skipWsGo rest line (col + 1 + 1)
    else ⟨c :: rest, line, col⟩

/-- Entry point of `skipWhitespace` on a lexer state. -/
def skipWhitespace (st : LexState) : LexState :=
  skipWsGo st.remaining st.line st.column

/-- Mirrors Go `readNumber`: a maximal run of digits and `.` characters (any
number of dots is accepted); the literal payload is the raw lexeme string. -/
def readNumber (st : LexState) : Token × LexState :=
  let ds := st.remaining.takeWhile fun c => goIsDigit c || c = '.'
  let rest := st.remaining.drop ds.length
  (⟨.number, ds.asString, st.line, st.column, .str ds.asString⟩,
   ⟨rest, st.line, st.column + ds.length⟩)

/-- Helper for `readText`: scans the string content after the opening quote up
to (not including) a closing quote, updating line/column as Go does (`line++;
column = 1` on an embedded newline, then `advance` bumps the column).  Returns
the content, the final line/column, and the rest after the closing quote, or
`none` if the input ends before a closing quote. -/
def textScan : List Char → Nat → Nat → List Char × Nat × Nat × Option (List Char)
  | [], line, col => ([], line, col, none)
  | c :: rest, line, col =>
    if c = '"' then ([], line, col, some rest)
    else
      let line' := if c = '\n' then line + 1 else line
      let col' := if c = '\n' then 1 + 1 else col + 1
      let (content, l2, c2, rem) := textScan rest line' col'
      (c :: content, l2, c2, rem)

/-- Mirrors Go `readText`: skip the opening quote, scan to the closing quote
(embedded newlines advance the line counter), and produce a text token whose
`Line` is the line at the END of the content and whose `Column` is where the
opening quote stood; an unterminated string yields a `TokenError`. -/
def readText (st : LexState) : Token × LexState :=
  let startColumn := st.column
  let st1 := advanceSt st
  let (content, line2, col2, rem) := textScan st1.remaining st1.line st1.column
  match rem with
  | none =>
    (⟨.error, "unterminated string", line2, startColumn, .null⟩,
     ⟨[], line2, col2⟩)
  | some rest =>
    (⟨.text, content.asString, line2, startColumn, .str content.asString⟩,
     ⟨rest, line2, col2 + 1⟩)

/-- Mirrors Go `getKeywordType`.  Note that `true`, `false`, `and`, `or`, `not`
are absent from the switch, so they fall through to `TokenIdentifier`. -/
def getKeywordType (value : String) : TokenType :=
  if value = "number" then .numberKeyword
  else if value = "text" then .textKeyword
  else if value = "boolean" then .booleanKeyword
  else if value = "function" then .kwFunction
  else if value = "if" then .kwIf
  else if value = "then" then .kwThen
  else if value = "else" then .kwElse
  else if value = "end" then .kwEnd
  else if value = "loop" then .kwLoop
  else if value = "from" then .kwFrom
  else if value = "to" then .kwTo
  else if value = "print" then .kwPrint
  else .identifier

/-- Mirrors Go `readIdentifierOrKeyword`: a maximal run of letters, digits and
underscores; keyword lookup via `getKeywordType`.  The Go code then tests
`tokenType == TokenBoolean`, which `getKeywordType` never returns, so the
boolean-literal branch is dead; it is transcribed nonetheless. -/
def readIdentifierOrKeyword (st : LexState) : Token × LexState :=
  let ds := st.remaining.takeWhile fun c => goIsLetter c || goIsDigit c || c = '_'
  let rest := st.remaining.drop ds.length
  let value := ds.asString
  let tokenType := getKeywordType value
  let st' : LexState := ⟨rest, st.line, st.column + ds.length⟩
  if tokenType = .boolean ∧ (value = "true" ∨ value = "false") then
    (⟨.boolean, value, st.line, st.column, .bool (value = "true")⟩, st')
  else
    (⟨tokenType, value, st.line, st.column, .str value⟩, st')

/-- Mirrors Go `nextToken`: dispatch on the current character.  Single-char
operator tokens record column `l.column - 1` as measured after the `advance`,
two-char comparisons record `l.column - 2`. -/
def nextToken (st : LexState) : Token × LexState :=
  let c := currentChar st
  if goIsDigit c then readNumber st
  else if c = '"' then readText st
  else if goIsLetter c then readIdentifierOrKeyword st
  else if c = '+' then
    let st' := advanceSt st
    (⟨.plus, "+", st'.line, st'.column - 1, .null⟩, st')
  else if c = '-' then
    let st' := advanceSt st
    (⟨.minus, "-", st'.line, st'.column - 1, .null⟩, st')
  else if c = '*' then
    let st' := advanceSt st
    (⟨.multiply, "*", st'.line, st'.column - 1, .null⟩, st')
  else if c = '/' then
    let st' := advanceSt st
    (⟨.divide, "/", st'.line, st'.column - 1, .null⟩, st')
  else if c = '=' then
    let st' := advanceSt st
    if currentChar st' = '=' then
      let st2 := advanceSt st'
      (⟨.equal, "==", st2.line, st2.column - 2, .null⟩, st2)
    else (⟨.assign, "=", st'.line, st'.column - 1, .null⟩, st')
  else if c = '<' then
    let st' := advanceSt st
    if currentChar st' = '=' then
      let st2 := advanceSt st'
      (⟨.lessEqual, "<=", st2.line, st2.column - 2, .null⟩, st2)
    else (⟨.lessThan, "<", st'.line, st'.column - 1, .null⟩, st')
  else if c = '>' then
    let st' := advanceSt st
    if currentChar st' = '=' then
      let st2 := advanceSt st'
      (⟨.greaterEqual, ">=", st2.line, st2.column - 2, .null⟩, st2)
    else (⟨.greaterThan, ">", st'.line, st'.column - 1, .null⟩, st')
  else if c = '!' then
    let st' := advanceSt st
    if currentChar st' = '=' then
      let st2 := advanceSt st'
      (⟨.notEqual, "!=", st2.line, st2.column - 2, .null⟩, st2)
    else (⟨.notOp, "!", st'.line, st'.column - 1, .null⟩, st')
  else if c = '(' then
    let st' := advanceSt st
    (⟨.leftParen, "(", st'.line, st'.column - 1, .null⟩, st')
  else if c = ')' then
    let st' := advanceSt st
    (⟨.rightParen, ")", st'.line, st'.column - 1, .null⟩, st')
  else if c = '{' then
    let st' := advanceSt st
    (⟨.leftBrace, "\x7b", st'.line, st'.column - 1, .null⟩, st')
  else if c = '}' then
    let st' := advanceSt st
    (⟨.rightBrace, "\x7d", st'.line, st'.column - 1, .null⟩, st')
  else if c = ',' then
    let st' := advanceSt st
    (⟨.comma, ",", st'.line, st'.column - 1, .null⟩, st')
  else if c = ';' then
    let st' := advanceSt st
    (⟨.semicolon, ";", st'.line, st'.column - 1, .null⟩, st')
  else if c = ':' then
    let st' := advanceSt st
    (⟨.colon, ":", st'.line, st'.column - 1, .null⟩, st')
  else
    (⟨.error, "unexpected character: " ++ c.toString, st.line, st.column, .null⟩, st)

/-- Result of tokenizing: the token list, or a lexical error carrying the
line/column/message that Go formats into
`"lexical error at line %d, column %d: %s"`, or fuel exhaustion (proved
unreachable for the fuel `Tokenize` supplies). -/
inductive LexResult where
  | ok (tokens : List Token)
  | fail (line column : Nat) (msg : String)
  | timeout
  deriving DecidableEq, Repr

/-- One iteration of the loop body of Go `Tokenize`: while input remains, skip
whitespace, stop if exhausted, read a token, halt on `TokenError`, and append;
at the end of input append the EOF token carrying the current line/column.
`next` continues the loop. -/
def tokenizeStep (next : LexState → List Token → LexResult)
    (st : LexState) (acc : List Token) : LexResult :=
  match st.remaining with
  | [] => .ok (acc ++ [⟨.eof, "", st.line, st.column, .null⟩])
  | _ :: _ =>
    let st1 := skipWhitespace st
    match st1.remaining with
    | [] => .ok (acc ++ [⟨.eof, "", st1.line, st1.column, .null⟩])
    | _ :: _ =>
      let (tok, st2) := nextToken st1
      if tok.type = .error then .fail tok.line tok.column tok.value
      else next st2 (acc ++ [tok])

/-- The `Tokenize` loop as a fuel-indexed fixpoint of `tokenizeStep` (the
explicit `Nat.rec` keeps concrete runs kernel-reducible). -/
def tokenizeGo (fuel : Nat) : LexState → List Token → LexResult :=
  Nat.rec (fun _ _ => .timeout) (fun _ next => tokenizeStep next) fuel

/-- Mirrors Go `Tokenize` on a fresh lexer (`line = 1`, `column = 1`).  Each
loop iteration that recurses consumes at least one character, so fuel
`length + 1` never runs out. -/
def Tokenize (input : List Char) : LexResult :=
  tokenizeGo (input.length + 1) ⟨input, 1, 1⟩ []

/-! ## Type and value model (internal/types) -/

/-- Mirrors the four Go type variants `NumberType`, `TextType`, `BooleanType`,
`VoidType`. -/
inductive GoType where
  | number | text | boolean | void
  deriving DecidableEq, Repr

/-- Mirrors the `String()` methods of the type variants. -/
def GoType.toStr : GoType → String
  | .number => "number"
  | .text => "text"
  | .boolean => "boolean"
  | .void => "void"

/-- Mirrors the `IsCompatibleWith` methods: each ground type accepts only
itself; `VoidType.IsCompatibleWith` accepts anything. -/
def GoType.isCompatibleWith : GoType → GoType → Bool
  | .number, other => other = .number
  | .text, other => other = .text
  | .boolean, other => other = .boolean
  | .void, _ => true

/-- Mirrors Go `TypeFromString`. -/
def typeFromString (typeStr : String) : Except String GoType :=
  if typeStr = "number" then .ok .number
  else if typeStr = "text" then .ok .text
  else if typeStr = "boolean" then .ok .boolean
  else if typeStr = "void" then .ok .void
  else .error ("unknown type: " ++ typeStr)

/-- Mirrors the Go `Value` variants.  `NumberValue`'s float64 payload is
modelled as ℚ (see the header comment). -/
inductive Value where
  | number (v : ℚ)
  | text (s : String)
  | boolean (b : Bool)
  | void
  deriving DecidableEq, Repr

/-- Mirrors the `Type()` methods of the value variants. -/
def Value.typeOf : Value → GoType
  | .number _ => .number
  | .text _ => .text
  | .boolean _ => .boolean
  | .void => .void

/-- Models `fmt.Sprintf "%g"` on a number value.  For an integral value of
magnitude below 10^21 (every number the claims print), `%g` prints the plain
decimal integer, which this matches exactly; a non-integral rational is
rendered here as `num/den`, standing in for Go's shortest-round-trip decimal
(no theorem relies on the non-integral case). -/
def displayNumber (q : ℚ) : String :=
  if q.den = 1 then toString q.num
  else toString q.num ++ "/" ++ toString q.den

/-- Mirrors the `String()` methods of the value variants (`%g` for numbers,
raw content for text, `%t` for booleans, `"void"` for void). -/
def Value.display : Value → String
  | .number v => displayNumber v
  | .text s => s
  | .boolean b => if b then "true" else "false"
  | .void => "void"

/-! ## AST (internal/ast) -/

/-- Mirrors `ast.Parameter`. -/
structure Param where
  name : String
  type : GoType
  deriving DecidableEq, Repr

/-- Mirrors the `ast.Expression` variants.  `Literal.Value` is the Go
`interface{}` payload copied from the token (`GoLit`). -/
inductive Expr where
  | lit (value : GoLit) (type : GoType)
  | ident (name : String)
  | binary (left : Expr) (op : String) (right : Expr)
  | unary (op : String) (operand : Expr)
  | call (name : String) (args : List Expr)
  deriving Repr

/-- Mirrors the `ast.Statement` variants. -/
inductive Stmt where
  | varDecl (type : GoType) (name : String) (value : Expr)
  | assign (name : String) (value : Expr)
  | ifStmt (condition : Expr) (thenBody elseBody : List Stmt)
  | loopStmt (varName : String) (fromExpr toExpr : Expr) (body : List Stmt)
  | funcDecl (name : String) (params : List Param) (returnType : GoType) (body : List Stmt)
  | printStmt (value : Expr)
  deriving Repr

/-- Mirrors `ast.Program`. -/
structure Program where
  statements : List Stmt
  deriving Repr

/-! ## Parser (internal/parser)

The Go parser keeps `(tokens, pos)` and is a bundle of mutually recursive
functions.  Each is transcribed below with an explicit fuel argument that
every call decrements, making the mutual recursion structural on fuel;
`Parse` supplies a fuel bound that is proved sufficient later (`Parse` never
returns `ParseResult.timeout`). -/

/-- Mirrors the Go zero value `lexer.Token{Type: lexer.TokenEOF}` synthesized
by `current`/`peek` past the end of the list (`TokenEOF` is the zero
`TokenType`; the other fields are zero values). -/
def zeroEofToken : Token := ⟨.eof, "", 0, 0, .null⟩

/-- Mirrors `Parser.current`: the token at `pos`, or the synthesized
end-of-input token when `pos` is at or past the end of the list. -/
def currentTok (tokens : List Token) (pos : Nat) : Token :=
  if tokens.length ≤ pos then zeroEofToken
  else tokens.getD pos zeroEofToken

/-- Mirrors `Parser.peek`: the token at `pos + 1`, or the synthesized
end-of-input token when `pos + 1` is at or past the end of the list. -/
def peekTok (tokens : List Token) (pos : Nat) : Token :=
  if tokens.length ≤ pos + 1 then zeroEofToken
  else tokens.getD (pos + 1) zeroEofToken

/-- Result of one parsing routine: the parsed node plus the position after it,
a parse-error message, or fuel exhaustion (proved unreachable for the fuel
`Parse` supplies). -/
inductive PRes (α : Type) where
  | ok (a : α) (pos : Nat)
  | fail (msg : String)
  | timeout
  deriving Repr

/-- Sequencing of parse results: continue on success, propagate a diagnostic
or fuel exhaustion unchanged (the Go parser returns `nil, err` immediately
when a sub-parse reports `err != nil`). -/
def pbind {α β : Type} : PRes α → (α → Nat → PRes β) → PRes β
  | .ok a pos, k => k a pos
  | .fail e, _ => .fail e
  | .timeout, _ => .timeout

/-- The expression-parsing routines of the Go parser bundled together: the
fields correspond one-to-one to the mutually recursive Go functions, with the
`...Loop` fields transcribing the inlined `for` loops of the corresponding
functions.  The bundle is tied as a fuel-indexed fixpoint (`exprParsers`)
written with an explicit `Nat.rec` so that concrete runs stay
kernel-reducible; every call in a body goes through `prev`, the bundle one
fuel level down. -/
structure ExprParsers where
  pExpression : Nat → PRes Expr
  pLogicalOr : Nat → PRes Expr
  pOrLoop : Expr → Nat → PRes Expr
  pLogicalAnd : Nat → PRes Expr
  pAndLoop : Expr → Nat → PRes Expr
  pEquality : Nat → PRes Expr
  pEqLoop : Expr → Nat → PRes Expr
  pComparison : Nat → PRes Expr
  pCmpLoop : Expr → Nat → PRes Expr
  pTerm : Nat → PRes Expr
  pTermLoop : Expr → Nat → PRes Expr
  pFactor : Nat → PRes Expr
  pFactorLoop : Expr → Nat → PRes Expr
  pUnary : Nat → PRes Expr
  pPrimary : Nat → PRes Expr
  pFunctionCall : String → Nat → PRes Expr
  pArgLoop : Nat → List Expr → PRes (List Expr)

/-- Bottom of the fuel tower: every routine reports fuel exhaustion. -/
def exprParsersTimeout : ExprParsers where
  pExpression := fun _ => .timeout
  pLogicalOr := fun _ => .timeout
  pOrLoop := fun _ _ => .timeout
  pLogicalAnd := fun _ => .timeout
  pAndLoop := fun _ _ => .timeout
  pEquality := fun _ => .timeout
  pEqLoop := fun _ _ => .timeout
  pComparison := fun _ => .timeout
  pCmpLoop := fun _ _ => .timeout
  pTerm := fun _ => .timeout
  pTermLoop := fun _ _ => .timeout
  pFactor := fun _ => .timeout
  pFactorLoop := fun _ _ => .timeout
  pUnary := fun _ => .timeout
  pPrimary := fun _ => .timeout
  pFunctionCall := fun _ _ => .timeout
  pArgLoop := fun _ _ => .timeout

/-- One fuel level of the expression parser.  Each field is the direct
transcription of the corresponding Go function:
* `pExpression` mirrors `parseExpression` (delegate to the lowest level);
* `pLogicalOr`/`pOrLoop` mirror `parseLogicalOr` and its
  `for p.current().Type == lexer.TokenOr` loop, and likewise for the other
  left-associative binary levels down to `pFactor`/`pFactorLoop`;
* `pUnary` mirrors `parseUnary`: prefix `-`/`!` recursing into itself;
* `pPrimary` mirrors `parsePrimary`: literals, identifier (a call when `(`
  follows), parenthesised expression, otherwise `"unexpected token"`;
* `pFunctionCall`/`pArgLoop` mirror `parseFunctionCall` and its argument
  loop (a comma is required before every argument after the first). -/
def exprParsersStep (tokens : List Token) (prev : ExprParsers) : ExprParsers where
  pExpression := fun pos => prev.pLogicalOr pos
  pLogicalOr := fun pos => pbind (prev.pLogicalAnd pos) prev.pOrLoop
  pOrLoop := fun left pos =>
    if (currentTok tokens pos).type = .orOp then
      pbind (prev.pLogicalAnd (pos + 1)) (fun right pos2 =>
        prev.pOrLoop (.binary left (currentTok tokens pos).value right) pos2)
    else .ok left pos
  pLogicalAnd := fun pos => pbind (prev.pEquality pos) prev.pAndLoop
  pAndLoop := fun left pos =>
    if (currentTok tokens pos).type = .andOp then
      pbind (prev.pEquality (pos + 1)) (fun right pos2 =>
        prev.pAndLoop (.binary left (currentTok tokens pos).value right) pos2)
    else .ok left pos
  pEquality := fun pos => pbind (prev.pComparison pos) prev.pEqLoop
  pEqLoop := fun left pos =>
    if (currentTok tokens pos).type = .equal ∨ (currentTok tokens pos).type = .notEqual then
      pbind (prev.pComparison (pos + 1)) (fun right pos2 =>
        prev.pEqLoop (.binary left (currentTok tokens pos).value right) pos2)
    else .ok left pos
  pComparison := fun pos => pbind (prev.pTerm pos) prev.pCmpLoop
  pCmpLoop := fun left pos =>
    if (currentTok tokens pos).type = .lessThan ∨ (currentTok tokens pos).type = .lessEqual ∨
        (currentTok tokens pos).type = .greaterThan ∨
        (currentTok tokens pos).type = .greaterEqual then
      pbind (prev.pTerm (pos + 1)) (fun right pos2 =>
        prev.pCmpLoop (.binary left (currentTok tokens pos).value right) pos2)
    else .ok left pos
  pTerm := fun pos => pbind (prev.pFactor pos) prev.pTermLoop
  pTermLoop := fun left pos =>
    if (currentTok tokens pos).type = .plus ∨ (currentTok tokens pos).type = .minus then
      pbind (prev.pFactor (pos + 1)) (fun right pos2 =>
        prev.pTermLoop (.binary left (currentTok tokens pos).value right) pos2)
    else .ok left pos
  pFactor := fun pos => pbind (prev.pUnary pos) prev.pFactorLoop
  pFactorLoop := fun left pos =>
    if (currentTok tokens pos).type = .multiply ∨ (currentTok tokens pos).type = .divide then
      pbind (prev.pUnary (pos + 1)) (fun right pos2 =>
        prev.pFactorLoop (.binary left (currentTok tokens pos).value right) pos2)
    else .ok left pos
  pUnary := fun pos =>
    if (currentTok tokens pos).type = .minus ∨ (currentTok tokens pos).type = .notOp then
      pbind (prev.pUnary (pos + 1)) (fun operand pos1 =>
        .ok (.unary (currentTok tokens pos).value operand) pos1)
    else prev.pPrimary pos
  pPrimary := fun pos =>
    match (currentTok tokens pos).type with
    | .number => .ok (.lit (currentTok tokens pos).literal .number) (pos + 1)
    | .text => .ok (.lit (currentTok tokens pos).literal .text) (pos + 1)
    | .boolean => .ok (.lit (currentTok tokens pos).literal .boolean) (pos + 1)
    | .identifier =>
      if (currentTok tokens (pos + 1)).type = .leftParen then
        prev.pFunctionCall (currentTok tokens pos).value (pos + 1)
      else .ok (.ident (currentTok tokens pos).value) (pos + 1)
    | .leftParen =>
      pbind (prev.pExpression (pos + 1)) (fun expr pos1 =>
        if (currentTok tokens pos1).type = .rightParen then .ok expr (pos1 + 1)
        else .fail ("expected ')', got " ++ (currentTok tokens pos1).value))
    | _ => .fail ("unexpected token: " ++ (currentTok tokens pos).value)
  pFunctionCall := fun name pos =>
    pbind (prev.pArgLoop (pos + 1) []) (fun args pos1 =>
      if (currentTok tokens pos1).type = .rightParen then .ok (.call name args) (pos1 + 1)
      else .fail ("expected ')', got " ++ (currentTok tokens pos1).value))
  pArgLoop := fun pos acc =>
    if (currentTok tokens pos).type = .rightParen then .ok acc pos
    else
      match acc with
      | [] =>
        pbind (prev.pExpression pos) (fun arg pos2 => prev.pArgLoop pos2 (acc ++ [arg]))
      | _ :: _ =>
        if (currentTok tokens pos).type = .comma then
          pbind (prev.pExpression (pos + 1)) (fun arg pos2 => prev.pArgLoop pos2 (acc ++ [arg]))
        else .fail ("expected ',' between arguments, got " ++ (currentTok tokens pos).value)

/-- The expression parser at a given fuel. -/
def exprParsers (tokens : List Token) (fuel : Nat) : ExprParsers :=
  Nat.rec exprParsersTimeout (fun _ prev => exprParsersStep tokens prev) fuel

/-- Mirrors `parseExpression`. -/
def parseExpression (tokens : List Token) (fuel pos : Nat) : PRes Expr :=
  (exprParsers tokens fuel).pExpression pos

/-- Mirrors `parseLogicalOr`. -/
def parseLogicalOr (tokens : List Token) (fuel pos : Nat) : PRes Expr :=
  (exprParsers tokens fuel).pLogicalOr pos

/-- The `or` loop of `parseLogicalOr`. -/
def orLoop (tokens : List Token) (fuel : Nat) (left : Expr) (pos : Nat) : PRes Expr :=
  (exprParsers tokens fuel).pOrLoop left pos

/-- Mirrors `parseLogicalAnd`. -/
def parseLogicalAnd (tokens : List Token) (fuel pos : Nat) : PRes Expr :=
  (exprParsers tokens fuel).pLogicalAnd pos

/-- The `and` loop of `parseLogicalAnd`. -/
def andLoop (tokens : List Token) (fuel : Nat) (left : Expr) (pos : Nat) : PRes Expr :=
  (exprParsers tokens fuel).pAndLoop left pos

/-- Mirrors `parseEquality`. -/
def parseEquality (tokens : List Token) (fuel pos : Nat) : PRes Expr :=
  (exprParsers tokens fuel).pEquality pos

/-- The `==`/`!=` loop of `parseEquality`. -/
def eqLoop (tokens : List Token) (fuel : Nat) (left : Expr) (pos : Nat) : PRes Expr :=
  (exprParsers tokens fuel).pEqLoop left pos

/-- Mirrors `parseComparison`. -/
def parseComparison (tokens : List Token) (fuel pos : Nat) : PRes Expr :=
  (exprParsers tokens fuel).pComparison pos

/-- The comparison loop of `parseComparison`. -/
def cmpLoop (tokens : List Token) (fuel : Nat) (left : Expr) (pos : Nat) : PRes Expr :=
  (exprParsers tokens fuel).pCmpLoop left pos

/-- Mirrors `parseTerm`. -/
def parseTerm (tokens : List Token) (fuel pos : Nat) : PRes Expr :=
  (exprParsers tokens fuel).pTerm pos

/-- The `+`/`-` loop of `parseTerm`. -/
def termLoop (tokens : List Token) (fuel : Nat) (left : Expr) (pos : Nat) : PRes Expr :=
  (exprParsers tokens fuel).pTermLoop left pos

/-- Mirrors `parseFactor`. -/
def parseFactor (tokens : List Token) (fuel pos : Nat) : PRes Expr :=
  (exprParsers tokens fuel).pFactor pos

/-- The `*`/`/` loop of `parseFactor`. -/
def factorLoop (tokens : List Token) (fuel : Nat) (left : Expr) (pos : Nat) : PRes Expr :=
  (exprParsers tokens fuel).pFactorLoop left pos

/-- Mirrors `parseUnary`. -/
def parseUnary (tokens : List Token) (fuel pos : Nat) : PRes Expr :=
  (exprParsers tokens fuel).pUnary pos

/-- Mirrors `parsePrimary`. -/
def parsePrimary (tokens : List Token) (fuel pos : Nat) : PRes Expr :=
  (exprParsers tokens fuel).pPrimary pos

/-- Mirrors `parseFunctionCall`. -/
def parseFunctionCall (tokens : List Token) (fuel : Nat) (name : String) (pos : Nat) :
    PRes Expr :=
  (exprParsers tokens fuel).pFunctionCall name pos

/-- The argument loop of `parseFunctionCall`. -/
def argLoop (tokens : List Token) (fuel pos : Nat) (acc : List Expr) : PRes (List Expr) :=
  (exprParsers tokens fuel).pArgLoop pos acc

/-- Transcription of the leading-comma handling at the top of the parameter
loop of `parseFunctionDeclaration`: with parameters already collected a comma
is required and skipped, otherwise the position is unchanged. -/
def commaAdjust (tokens : List Token) (pos : Nat) (first : Bool) : Except String Nat :=
  if first then .ok pos
  else
    if (currentTok tokens pos).type = .comma then .ok (pos + 1)
    else .error ("expected ',' between parameters, got " ++ (currentTok tokens pos).value)

/-- The statement-parsing routines of the Go parser bundled together,
analogous to `ExprParsers`: `pThenLoop` is the then-branch loop of
`parseIfStatement` (terminated by `else`/`end`/EOF), `pBodyLoop` the
statement loop terminated by `end`/EOF that Go inlines identically in the
else-branch of `parseIfStatement`, in `parseLoopStatement` and in
`parseFunctionDeclaration`, and `pParamLoop` the parameter loop of
`parseFunctionDeclaration`. -/
structure StmtParsers where
  pStatement : Nat → PRes Stmt
  pVariableDeclaration : Nat → PRes Stmt
  pAssignment : Nat → PRes Stmt
  pIfStatement : Nat → PRes Stmt
  pThenLoop : Nat → List Stmt → PRes (List Stmt)
  pBodyLoop : Nat → List Stmt → PRes (List Stmt)
  pLoopStatement : Nat → PRes Stmt
  pFunctionDeclaration : Nat → PRes Stmt
  pParamLoop : Nat → List Param → PRes (List Param)
  pPrintStatement : Nat → PRes Stmt
  pExpressionStatement : Nat → PRes Stmt

/-- Bottom of the statement-parser fuel tower. -/
def stmtParsersTimeout : StmtParsers where
  pStatement := fun _ => .timeout
  pVariableDeclaration := fun _ => .timeout
  pAssignment := fun _ => .timeout
  pIfStatement := fun _ => .timeout
  pThenLoop := fun _ _ => .timeout
  pBodyLoop := fun _ _ => .timeout
  pLoopStatement := fun _ => .timeout
  pFunctionDeclaration := fun _ => .timeout
  pParamLoop := fun _ _ => .timeout
  pPrintStatement := fun _ => .timeout
  pExpressionStatement := fun _ => .timeout

/-- One fuel level of the statement parser; `fuel` is the level below (used
for the calls into the expression parser), `prev` the statement bundle one
level down.  Field-by-field this transcribes:
* `pStatement`: the `parseStatement` dispatch (typed keyword, identifier with
  `=` at peek, bare identifier, `if`/`loop`/`function`/`print`, otherwise the
  `"unexpected token"` diagnostic);
* `pVariableDeclaration`: TYPE IDENT `=` expression, with `TypeFromString`
  applied after the initialiser is parsed, as in Go;
* `pAssignment`: IDENT `=` expression;
* `pIfStatement`: `if` expression `then` then-body (`else` else-body)? `end`;
* `pLoopStatement`: `loop` IDENT `from` expression `to` expression body `end`;
* `pFunctionDeclaration`: `function` IDENT `(` params `)` body `end`, return
  type always `VoidType`;
* `pPrintStatement`: `print` expression;
* `pExpressionStatement`: a bare expression wrapped in a `PrintStatement`
  (the Go comment reads "For now, we'll just return the expression as a
  statement"). -/
def stmtParsersStep (tokens : List Token) (fuel : Nat) (prev : StmtParsers) : StmtParsers where
  pStatement := fun pos =>
    match (currentTok tokens pos).type with
    | .numberKeyword => prev.pVariableDeclaration pos
    | .textKeyword => prev.pVariableDeclaration pos
    | .booleanKeyword => prev.pVariableDeclaration pos
    | .identifier =>
      if (peekTok tokens pos).type = .assign then prev.pAssignment pos
      else prev.pExpressionStatement pos
    | .kwIf => prev.pIfStatement pos
    | .kwLoop => prev.pLoopStatement pos
    | .kwFunction => prev.pFunctionDeclaration pos
    | .kwPrint => prev.pPrintStatement pos
    | _ =>
      .fail ("unexpected token at line " ++ toString (currentTok tokens pos).line ++
        ", column " ++ toString (currentTok tokens pos).column ++ ": " ++
        (currentTok tokens pos).value)
  pVariableDeclaration := fun pos =>
    if (currentTok tokens (pos + 1)).type = .identifier then
      if (currentTok tokens (pos + 2)).type = .assign then
        pbind (parseExpression tokens fuel (pos + 3)) (fun value pos3 =>
          match typeFromString (currentTok tokens pos).value with
          | .ok varType => .ok (.varDecl varType (currentTok tokens (pos + 1)).value value) pos3
          | .error e => .fail e)
      else .fail ("expected '=' after variable name, got " ++ (currentTok tokens (pos + 2)).value)
    else .fail ("expected identifier after type, got " ++ (currentTok tokens (pos + 1)).value)
  pAssignment := fun pos =>
    if (currentTok tokens (pos + 1)).type = .assign then
      pbind (parseExpression tokens fuel (pos + 2)) (fun value pos2 =>
        .ok (.assign (currentTok tokens pos).value value) pos2)
    else .fail ("expected '=' after variable name, got " ++ (currentTok tokens (pos + 1)).value)
  pIfStatement := fun pos =>
    pbind (parseExpression tokens fuel (pos + 1)) (fun condition pos1 =>
      if (currentTok tokens pos1).type = .kwThen then
        pbind (prev.pThenLoop (pos1 + 1) []) (fun thenBody pos2 =>
          if (currentTok tokens pos2).type = .kwElse then
            pbind (prev.pBodyLoop (pos2 + 1) []) (fun elseBody pos3 =>
              if (currentTok tokens pos3).type = .kwEnd then
                .ok (.ifStmt condition thenBody elseBody) (pos3 + 1)
              else
                .fail ("expected 'end' after if statement, got " ++
                  (currentTok tokens pos3).value))
          else
            if (currentTok tokens pos2).type = .kwEnd then
              .ok (.ifStmt condition thenBody []) (pos2 + 1)
            else
              .fail ("expected 'end' after if statement, got " ++ (currentTok tokens pos2).value))
      else .fail ("expected 'then' after condition, got " ++ (currentTok tokens pos1).value))
  pThenLoop := fun pos acc =>
    if (currentTok tokens pos).type = .kwElse ∨ (currentTok tokens pos).type = .kwEnd ∨
        (currentTok tokens pos).type = .eof then
      .ok acc pos
    else
      pbind (prev.pStatement pos) (fun stmt pos1 => prev.pThenLoop pos1 (acc ++ [stmt]))
  pBodyLoop := fun pos acc =>
    if (currentTok tokens pos).type = .kwEnd ∨ (currentTok tokens pos).type = .eof then
      .ok acc pos
    else
      pbind (prev.pStatement pos) (fun stmt pos1 => prev.pBodyLoop pos1 (acc ++ [stmt]))
  pLoopStatement := fun pos =>
    if (currentTok tokens (pos + 1)).type = .identifier then
      if (currentTok tokens (pos + 2)).type = .kwFrom then
        pbind (parseExpression tokens fuel (pos + 3)) (fun fromExpr pos1 =>
          if (currentTok tokens pos1).type = .kwTo then
            pbind (parseExpression tokens fuel (pos1 + 1)) (fun toExpr pos2 =>
              pbind (prev.pBodyLoop pos2 []) (fun body pos3 =>
                if (currentTok tokens pos3).type = .kwEnd then
                  .ok (.loopStmt (currentTok tokens (pos + 1)).value fromExpr toExpr body)
                    (pos3 + 1)
                else
                  .fail ("expected 'end' after loop body, got " ++
                    (currentTok tokens pos3).value)))
          else .fail ("expected 'to' after 'from' expression, got " ++
            (currentTok tokens pos1).value))
      else .fail ("expected 'from' after loop variable, got " ++ (currentTok tokens (pos + 2)).value)
    else .fail ("expected identifier after 'loop', got " ++ (currentTok tokens (pos + 1)).value)
  pFunctionDeclaration := fun pos =>
    if (currentTok tokens (pos + 1)).type = .identifier then
      if (currentTok tokens (pos + 2)).type = .leftParen then
        pbind (prev.pParamLoop (pos + 3) []) (fun params pos1 =>
          pbind (prev.pBodyLoop (pos1 + 1) []) (fun body pos2 =>
            if (currentTok tokens pos2).type = .kwEnd then
              .ok (.funcDecl (currentTok tokens (pos + 1)).value params .void body) (pos2 + 1)
            else
              .fail ("expected 'end' after function body, got " ++
                (currentTok tokens pos2).value)))
      else .fail ("expected '(' after function name, got " ++ (currentTok tokens (pos + 2)).value)
    else .fail ("expected function name after 'function', got " ++ (currentTok tokens (pos + 1)).value)
  pParamLoop := fun pos acc =>
    if (currentTok tokens pos).type = .rightParen then .ok acc pos
    else
      match commaAdjust tokens pos acc.isEmpty with
      | .error e => .fail e
      | .ok pos1 =>
        if (currentTok tokens pos1).type = .numberKeyword ∨
            (currentTok tokens pos1).type = .textKeyword ∨
            (currentTok tokens pos1).type = .booleanKeyword then
          match typeFromString (currentTok tokens pos1).value with
          | .error e => .fail e
          | .ok paramType =>
            if (currentTok tokens (pos1 + 1)).type = .identifier then
              prev.pParamLoop (pos1 + 2)
                (acc ++ [⟨(currentTok tokens (pos1 + 1)).value, paramType⟩])
            else .fail ("expected parameter name, got " ++ (currentTok tokens (pos1 + 1)).value)
        else .fail ("expected parameter type, got " ++ (currentTok tokens pos1).value)
  pPrintStatement := fun pos =>
    pbind (parseExpression tokens fuel (pos + 1)) (fun value pos1 =>
      .ok (.printStmt value) pos1)
  pExpressionStatement := fun pos =>
    pbind (parseExpression tokens fuel pos) (fun expr pos1 =>
      .ok (.printStmt expr) pos1)

/-- The statement parser at a given fuel (the `Nat.rec` step receives the
lower fuel level, used for the expression-parser calls). -/
def stmtParsers (tokens : List Token) (fuel : Nat) : StmtParsers :=
  Nat.rec stmtParsersTimeout (fun n prev => stmtParsersStep tokens n prev) fuel

/-- Mirrors `parseStatement`. -/
def parseStatement (tokens : List Token) (fuel pos : Nat) : PRes Stmt :=
  (stmtParsers tokens fuel).pStatement pos

/-- Mirrors `parseVariableDeclaration`. -/
def parseVariableDeclaration (tokens : List Token) (fuel pos : Nat) : PRes Stmt :=
  (stmtParsers tokens fuel).pVariableDeclaration pos

/-- Mirrors `parseAssignment`. -/
def parseAssignment (tokens : List Token) (fuel pos : Nat) : PRes Stmt :=
  (stmtParsers tokens fuel).pAssignment pos

/-- Mirrors `parseIfStatement`. -/
def parseIfStatement (tokens : List Token) (fuel pos : Nat) : PRes Stmt :=
  (stmtParsers tokens fuel).pIfStatement pos

/-- The then-branch loop of `parseIfStatement`. -/
def thenLoop (tokens : List Token) (fuel pos : Nat) (acc : List Stmt) : PRes (List Stmt) :=
  (stmtParsers tokens fuel).pThenLoop pos acc

/-- The `end`-terminated statement loop (else-branch, loop and function
bodies). -/
def bodyLoop (tokens : List Token) (fuel pos : Nat) (acc : List Stmt) : PRes (List Stmt) :=
  (stmtParsers tokens fuel).pBodyLoop pos acc

/-- Mirrors `parseLoopStatement`. -/
def parseLoopStatement (tokens : List Token) (fuel pos : Nat) : PRes Stmt :=
  (stmtParsers tokens fuel).pLoopStatement pos

/-- Mirrors `parseFunctionDeclaration`. -/
def parseFunctionDeclaration (tokens : List Token) (fuel pos : Nat) : PRes Stmt :=
  (stmtParsers tokens fuel).pFunctionDeclaration pos

/-- The parameter loop of `parseFunctionDeclaration`. -/
def paramLoop (tokens : List Token) (fuel pos : Nat) (acc : List Param) : PRes (List Param) :=
  (stmtParsers tokens fuel).pParamLoop pos acc

/-- Mirrors `parsePrintStatement`. -/
def parsePrintStatement (tokens : List Token) (fuel pos : Nat) : PRes Stmt :=
  (stmtParsers tokens fuel).pPrintStatement pos

/-- Mirrors `parseExpressionStatement`. -/
def parseExpressionStatement (tokens : List Token) (fuel pos : Nat) : PRes Stmt :=
  (stmtParsers tokens fuel).pExpressionStatement pos

/-- One iteration of the `for p.current().Type != lexer.TokenEOF` loop of
`Parse`; `next` continues the loop. -/
def parseProgramStep (tokens : List Token) (fuel : Nat)
    (next : Nat → List Stmt → PRes (List Stmt)) (pos : Nat) (acc : List Stmt) :
    PRes (List Stmt) :=
  if (currentTok tokens pos).type = .eof then .ok acc pos
  else
    pbind (parseStatement tokens fuel pos) (fun stmt pos1 => next pos1 (acc ++ [stmt]))

/-- Mirrors the statement loop of `Parse`, as a fuel-indexed fixpoint. -/
def parseProgramLoop (tokens : List Token) (fuel : Nat) :
    Nat → List Stmt → PRes (List Stmt) :=
  Nat.rec (fun _ _ => .timeout) (fun n next => parseProgramStep tokens n next) fuel

/-- Result of `Parse`: a program or a parse error (the `timeout` case is an
artifact of the fuel encoding, proved unreachable). -/
inductive ParseResult where
  | ok (program : Program)
  | fail (msg : String)
  | timeout
  deriving Repr

/-- Fuel that is proved sufficient for the parser on a given token list. -/
def parserFuel (tokens : List Token) : Nat := 16 * (tokens.length + 2)

/-- Mirrors `Parse`: statements until the end-of-input token. -/
def Parse (tokens : List Token) : ParseResult :=
  match parseProgramLoop tokens (parserFuel tokens) 0 [] with
  | .ok stmts _ => .ok ⟨stmts⟩
  | .fail e => .fail e
  | .timeout => .timeout

/-! ## Evaluator (internal/interpreter) -/

/-- Mirrors `ast.FunctionDeclaration` as stored in an environment's function
map (the parser-built record: name, parameters, return type, body). -/
structure FuncDef where
  name : String
  params : List Param
  returnType : GoType
  body : List Stmt

/-- One Go `Environment` object: its `variables` and `functions` maps
(modelled as lookup functions, matching Go map read/overwrite semantics). -/
structure Frame where
  vars : String → Option Value
  funcs : String → Option FuncDef

/-- Mirrors `NewEnvironment`'s empty maps. -/
def emptyFrame : Frame := ⟨fun _ => none, fun _ => none⟩

/-- The environment chain, innermost frame first (Go links frames by `parent`
pointers; the last element models the root environment). -/
def Env := List Frame

/-- Mirrors `Environment.SetVariable`: writes the INNERMOST frame
unconditionally (`e.variables[name] = value` on the current environment). -/
def setVariable (env : Env) (name : String) (v : Value) : Env :=
  match env with
  | [] => []
  | f :: rest =>
    { f with vars := fun x => if x = name then some v else f.vars x } :: rest

/-- Mirrors `Environment.GetVariable`: look in the current frame, else recurse
into the parent. -/
def getVariable (env : Env) (name : String) : Option Value :=
  match env with
  | [] => none
  | f :: rest =>
    match f.vars name with
    | some v => some v
    | none => getVariable rest name

/-- Mirrors `Environment.SetFunction`: writes the innermost frame. -/
def setFunction (env : Env) (name : String) (fn : FuncDef) : Env :=
  match env with
  | [] => []
  | f :: rest =>
    { f with funcs := fun x => if x = name then some fn else f.funcs x } :: rest

/-- Mirrors `Environment.GetFunction`. -/
def getFunction (env : Env) (name : String) : Option FuncDef :=
  match env with
  | [] => none
  | f :: rest =>
    match f.funcs name with
    | some fn => some fn
    | none => getFunction rest name

/-- Evaluation outcome: a result, a runtime diagnostic message, or fuel
exhaustion (the fuel is only a totality device; Go's evaluator has none). -/
inductive Res (α : Type) where
  | ok (a : α)
  | fail (msg : String)
  | timeout
  deriving DecidableEq

/-- Decimal value of a digit run. -/
def digitsVal (ds : List Char) : ℚ :=
  ds.foldl (fun acc c => acc * 10 + ((c.toNat - '0'.toNat : ℕ) : ℚ)) 0

/-- Models `fmt.Sscanf(str, "%f", &num)` as `evaluateLiteral` applies it to the
scanner's number lexemes (runs of digits and dots).  Go's scanner reads the
longest prefix of the form `digits [. digits]` (`fmt`'s `floatToken` accepts
one period and stops at the second) and `strconv.ParseFloat` converts it;
`Sscanf` does NOT require the whole string to be consumed, so `"1.2.3"` scans
as 1.2 with no error.  The sign/exponent/inf/nan branches of `floatToken` and
digit-separating underscores cannot occur in such lexemes and are not
modelled.  `none` models the error case (empty float token or a bare `"."`,
where `ParseFloat` fails). -/
def sscanfFloat (s : List Char) : Option ℚ :=
  let intDigits := s.takeWhile goIsDigit
  let rest := s.drop intDigits.length
  match rest with
  | '.' :: r =>
    let fracDigits := r.takeWhile goIsDigit
    if intDigits.isEmpty && fracDigits.isEmpty then none
    else some (digitsVal intDigits + digitsVal fracDigits / 10 ^ fracDigits.length)
  | _ =>
    if intDigits.isEmpty then none
    else some (digitsVal intDigits)

/-- Mirrors `evaluateLiteral`: convert the token payload carried by a
`Literal` node into a runtime value according to the literal's declared type. -/
def evaluateLiteral (litValue : GoLit) (litType : GoType) : Res Value :=
  match litType with
  | .number =>
    match litValue with
    | .str s =>
      match sscanfFloat s.toList with
      | some q => .ok (.number q)
      | none => .fail ("invalid number: " ++ s)
    | _ => .fail "invalid number literal"
  | .text =>
    match litValue with
    | .str s => .ok (.text s)
    | _ => .fail "invalid text literal"
  | .boolean =>
    match litValue with
    | .bool b => .ok (.boolean b)
    | _ => .fail "invalid boolean literal"
  | .void => .fail ("unknown literal type: " ++ GoType.toStr .void)

/-- Mirrors `Interpreter.add`: number addition, text concatenation, and
text/number concatenation with the number rendered via `%g`. -/
def addOp (left right : Value) : Res Value :=
  match left, right with
  | .number l, .number r => .ok (.number (l + r))
  | .text l, .text r => .ok (.text (l ++ r))
  | .text l, .number r => .ok (.text (l ++ displayNumber r))
  | .number l, .text r => .ok (.text (displayNumber l ++ r))
  | _, _ => .fail ("cannot add " ++ left.typeOf.toStr ++ " and " ++ right.typeOf.toStr)

/-- Mirrors `Interpreter.subtract`. -/
def subtractOp (left right : Value) : Res Value :=
  match left, right with
  | .number l, .number r => .ok (.number (l - r))
  | _, _ => .fail ("cannot subtract " ++ right.typeOf.toStr ++ " from " ++ left.typeOf.toStr)

/-- Mirrors `Interpreter.multiply`. -/
def multiplyOp (left right : Value) : Res Value :=
  match left, right with
  | .number l, .number r => .ok (.number (l * r))
  | _, _ => .fail ("cannot multiply " ++ left.typeOf.toStr ++ " and " ++ right.typeOf.toStr)

/-- Mirrors `Interpreter.divide`, including the `r == 0` guard. -/
def divideOp (left right : Value) : Res Value :=
  match left, right with
  | .number l, .number r =>
    if r = 0 then .fail "division by zero"
    else .ok (.number (l / r))
  | _, _ => .fail ("cannot divide " ++ left.typeOf.toStr ++ " by " ++ right.typeOf.toStr)

/-- Computable absolute value on ℚ (`ratAbs_eq_abs` relates it to `|·|`). -/
def ratAbs (q : ℚ) : ℚ := if q < 0 then -q else q

/-- Mirrors `Interpreter.equal`: unequal type variants compare `false`;
numbers use the absolute 1e-9 tolerance `math.Abs(l-r) < 1e-9`. -/
def equalOp (left right : Value) : Res Value :=
  if left.typeOf ≠ right.typeOf then .ok (.boolean false)
  else
    match left, right with
    | .number l, .number r => .ok (.boolean (decide (ratAbs (l - r) < 1 / 1000000000)))
    | .text l, .text r => .ok (.boolean (l == r))
    | .boolean l, .boolean r => .ok (.boolean (l == r))
    | _, _ => .ok (.boolean false)

/-- Mirrors `Interpreter.notEqual`: negates `equal`'s boolean. -/
def notEqualOp (left right : Value) : Res Value :=
  match equalOp left right with
  | .ok (.boolean b) => .ok (.boolean !b)
  | other => other

/-- Mirrors `Interpreter.lessThan`. -/
def lessThanOp (left right : Value) : Res Value :=
  match left, right with
  | .number l, .number r => .ok (.boolean (decide (l < r)))
  | _, _ => .fail ("cannot compare " ++ left.typeOf.toStr ++ " and " ++ right.typeOf.toStr)

/-- Mirrors `Interpreter.lessEqual`. -/
def lessEqualOp (left right : Value) : Res Value :=
  match left, right with
  | .number l, .number r => .ok (.boolean (decide (l ≤ r)))
  | _, _ => .fail ("cannot compare " ++ left.typeOf.toStr ++ " and " ++ right.typeOf.toStr)

/-- Mirrors `Interpreter.greaterThan`. -/
def greaterThanOp (left right : Value) : Res Value :=
  match left, right with
  | .number l, .number r => .ok (.boolean (decide (r < l)))
  | _, _ => .fail ("cannot compare " ++ left.typeOf.toStr ++ " and " ++ right.typeOf.toStr)

/-- Mirrors `Interpreter.greaterEqual`. -/
def greaterEqualOp (left right : Value) : Res Value :=
  match left, right with
  | .number l, .number r => .ok (.boolean (decide (r ≤ l)))
  | _, _ => .fail ("cannot compare " ++ left.typeOf.toStr ++ " and " ++ right.typeOf.toStr)

/-- Mirrors `Interpreter.logicalAnd`: requires two booleans (both operands
have already been evaluated by `evaluateBinaryExpression`). -/
def logicalAndOp (left right : Value) : Res Value :=
  match left, right with
  | .boolean l, .boolean r => .ok (.boolean (l && r))
  | _, _ =>
    .fail ("cannot perform logical AND on " ++ left.typeOf.toStr ++ " and " ++ right.typeOf.toStr)

/-- Mirrors `Interpreter.logicalOr`. -/
def logicalOrOp (left right : Value) : Res Value :=
  match left, right with
  | .boolean l, .boolean r => .ok (.boolean (l || r))
  | _, _ =>
    .fail ("cannot perform logical OR on " ++ left.typeOf.toStr ++ " and " ++ right.typeOf.toStr)

/-- Mirrors the operator dispatch switch of `evaluateBinaryExpression`
(applied after BOTH operands have been evaluated). -/
def applyBinaryOp (op : String) (left right : Value) : Res Value :=
  if op = "+" then addOp left right
  else if op = "-" then subtractOp left right
  else if op = "*" then multiplyOp left right
  else if op = "/" then divideOp left right
  else if op = "==" then equalOp left right
  else if op = "!=" then notEqualOp left right
  else if op = "<" then lessThanOp left right
  else if op = "<=" then lessEqualOp left right
  else if op = ">" then greaterThanOp left right
  else if op = ">=" then greaterEqualOp left right
  else if op = "and" then logicalAndOp left right
  else if op = "or" then logicalOrOp left right
  else .fail ("unknown binary operator: " ++ op)

/-- Mirrors `evaluateUnaryExpression`'s operator switch (after the operand has
been evaluated). -/
def applyUnaryOp (op : String) (operand : Value) : Res Value :=
  if op = "-" then
    match operand with
    | .number n => .ok (.number (-n))
    | _ => .fail "cannot negate non-number value"
  else if op = "!" then
    match operand with
    | .boolean b => .ok (.boolean !b)
    | _ => .fail "cannot negate non-boolean value"
  else .fail ("unknown unary operator: " ++ op)

/-- Mirrors the parameter-binding loop of `evaluateFunctionCall`: for each
parameter position, check `param.Type.IsCompatibleWith(args[j].Type())` and
bind into the callee frame (argument count was already checked). -/
def bindParams (fname : String) : List Param → List Value → Frame → Except String Frame
  | [], _, fr => .ok fr
  | _ :: _, [], fr => .ok fr
  | p :: ps, a :: rest, fr =>
    if p.type.isCompatibleWith a.typeOf then
      bindParams fname ps rest
        { fr with vars := fun x => if x = p.name then some a else fr.vars x }
    else
      .error ("type mismatch in function " ++ fname ++ ": parameter " ++ p.name ++
        " expects " ++ p.type.toStr ++ ", got " ++ a.typeOf.toStr)

/-- Computable floor on ℚ (`ratFloor_eq_floor` relates it to `⌊·⌋`). -/
def ratFloor (q : ℚ) : ℤ := q.num / q.den

/-- Fuel-bounded binary logarithm on `Nat` (`⌊log2 n⌋` once the fuel covers
`n`); a helper for locating the binade of a float64 value. -/
def log2Fuel : Nat → Nat → Nat
  | 0, _ => 0
  | fuel + 1, n => if n ≤ 1 then 0 else log2Fuel fuel (n / 2) + 1

/-- `⌊log2 n⌋` for `1 ≤ n` (and 0 at 0). -/
def natLog2 (n : Nat) : Nat := log2Fuel n n

/-- `2 ^ e` as a rational, for an integer (possibly negative) exponent. -/
def pow2 (e : ℤ) : ℚ :=
  if 0 ≤ e then ((2 ^ e.toNat : ℕ) : ℚ) else 1 / ((2 ^ (-e).toNat : ℕ) : ℚ)

/-- The binade exponent of a nonzero rational: the `e` with
`2 ^ e ≤ |q| < 2 ^ (e + 1)`, computed from the bit lengths of numerator and
denominator with a two-sided correction. -/
def qlog2 (q : ℚ) : ℤ :=
  if pow2 ((natLog2 q.num.natAbs : ℤ) - (natLog2 q.den : ℤ) + 1) ≤ ratAbs q then
    (natLog2 q.num.natAbs : ℤ) - (natLog2 q.den : ℤ) + 1
  else if pow2 ((natLog2 q.num.natAbs : ℤ) - (natLog2 q.den : ℤ)) ≤ ratAbs q then
    (natLog2 q.num.natAbs : ℤ) - (natLog2 q.den : ℤ)
  else (natLog2 q.num.natAbs : ℤ) - (natLog2 q.den : ℤ) - 1

/-- Round a rational to the nearest integer, ties to even (the rounding mode
of IEEE-754 binary64 arithmetic, which Go's `float64` uses). -/
def roundEven (r : ℚ) : ℤ :=
  if r - (ratFloor r : ℚ) < 1 / 2 then ratFloor r
  else if (1 : ℚ) / 2 < r - (ratFloor r : ℚ) then ratFloor r + 1
  else if ratFloor r % 2 = 0 then ratFloor r else ratFloor r + 1

/-- The scaling factor that brings `q` to an integer significand: `2 ^ (52 - e)`
for a normal binade `e ≥ -1022`, and the subnormal quantum `2 ^ 1074`
otherwise. -/
def fl64scale (q : ℚ) : ℚ :=
  if (-1022 : ℤ) ≤ qlog2 q then pow2 (52 - qlog2 q) else pow2 1074

/-- Round a rational to the nearest IEEE-754 binary64 value (53-bit
significand, subnormals, ties to even), as an exact rational.  This is the
rounding Go applies to the result of every `float64` operation; overflow to
infinity is not modelled because the only rounded operation in this
development is the loop counter's `j + 1`, which never overflows (for `j` at
the largest finite double, `j + 1` rounds back to `j`). -/
def fl64 (q : ℚ) : ℚ :=
  if q = 0 then 0 else (roundEven (q * fl64scale q) : ℚ) / fl64scale q

/-- The successive values of the float64 loop counter `j` of Go's
`for j := from; j <= to; j++` in `executeLoopStatement`: while `j <= to`,
emit `j` and continue with the float64 sum `fl64 (j + 1)` (both bounds are
float64 values, so only the increment rounds).  The fuel is a totality
device: the Go loop is unbounded, and indeed never terminates once the
counter reaches `2 ^ 53`, where `fl64 (j + 1) = j`; `none` reports exhausted
fuel. -/
def loopCounterValues : Nat → ℚ → ℚ → Option (List ℚ)
  | 0, _, _ => none
  | fuel + 1, j, toV =>
    if j ≤ toV then (loopCounterValues fuel (fl64 (j + 1)) toV).map (fun vs => j :: vs)
    else some []

/-- The evaluator routines of the Go interpreter bundled together
(`evaluateExpression`, the argument loop of `evaluateFunctionCall`,
`executeStatement`, the statement loops, and the counter loop of
`executeLoopStatement`), tied as a fuel-indexed fixpoint like the parser
bundles.  The fuel is only a totality device: Go's evaluator has none and the
language permits unbounded recursion through function calls. -/
structure Evaluators where
  eExpr : Expr → Env → List String → Res (Value × List String)
  eArgs : List Expr → Env → List String → Res (List Value × List String)
  eStmt : Stmt → Env → List String → Res (Value × Env × List String)
  eStmts : List Stmt → Env → List String → Res (Env × List String)
  eLoopIters : String → List ℚ → List Stmt → Env → List String → Res (Env × List String)

/-- Bottom of the evaluator fuel tower. -/
def evaluatorsTimeout : Evaluators where
  eExpr := fun _ _ _ => .timeout
  eArgs := fun _ _ _ => .timeout
  eStmt := fun _ _ _ => .timeout
  eStmts := fun _ _ _ => .timeout
  eLoopIters := fun _ _ _ _ _ => .timeout

/-- One fuel level of the evaluator.

`eExpr` mirrors `evaluateExpression` (with `evaluateLiteral`,
`evaluateIdentifier`, `evaluateBinaryExpression`, `evaluateUnaryExpression`
and `evaluateFunctionCall` inlined as the match arms).  The environment is
read-only during expression evaluation: every write in the Go interpreter
(`SetVariable`/`SetFunction`) targets the frame that is innermost at that
moment, which during an expression evaluation is always the callee frame
created by `evaluateFunctionCall` itself, and `evaluateFunctionCall` restores
`i.environment` on exit.  Printed lines are threaded through the `List
String` accumulator (function bodies can print).  Note that
`evaluateBinaryExpression` evaluates BOTH operands before dispatching on the
operator - including for `and`/`or`.

`eStmt` mirrors `executeStatement` with the per-variant `execute*` methods
inlined as the match arms, in the order of the Go switch:
* variable declaration: evaluate the initialiser, check
  `stmt.Type.IsCompatibleWith(value.Type())`, bind in the current frame;
* assignment: evaluate, check existence through the chain
  (`GetVariable`), then write with `SetVariable` - which targets the
  INNERMOST frame;
* if: evaluate the condition, require a boolean, run the chosen body in the
  current frame (no push);
* loop: evaluate both bounds, require numbers, compute the float64 counter
  sequence (`loopCounterValues`, fuel-bounded because the Go loop can run
  forever), push a fresh frame, run the counter loop, pop the frame on exit
  (Go restores `i.environment = oldEnv`; outer frames are never written while
  an inner frame exists, so this is dropping the innermost frame);
* function declaration: bind the declaration in the current frame;
* print: evaluate and append `value.String()` as one output line.

`eStmts` mirrors the statement loops of `Interpret` and of the bodies
(execute in order, first diagnostic aborts).  `eLoopIters` mirrors the
`for j := from; j <= to; j++` loop: at the start of every iteration the loop
variable is rebound in the loop frame from the internal counter
(`loopEnv.SetVariable(stmt.Variable, j)`), then the body runs; the counter is
a Go local unreachable from the program. -/
def evalStep (fuel : Nat) (prev : Evaluators) : Evaluators where
  eExpr := fun e env out =>
    match e with
    | .lit v t =>
      match evaluateLiteral v t with
      | .ok value => .ok (value, out)
      | .fail err => .fail err
      | .timeout => .timeout
    | .ident name =>
      match getVariable env name with
      | some v => .ok (v, out)
      | none => .fail ("undefined variable: " ++ name)
    | .binary l op r =>
      match prev.eExpr l env out with
      | .ok (lv, out1) =>
        match prev.eExpr r env out1 with
        | .ok (rv, out2) =>
          match applyBinaryOp op lv rv with
          | .ok v => .ok (v, out2)
          | .fail err => .fail err
          | .timeout => .timeout
        | .fail err => .fail err
        | .timeout => .timeout
      | .fail err => .fail err
      | .timeout => .timeout
    | .unary op operand =>
      match prev.eExpr operand env out with
      | .ok (v, out1) =>
        match applyUnaryOp op v with
        | .ok v2 => .ok (v2, out1)
        | .fail err => .fail err
        | .timeout => .timeout
      | .fail err => .fail err
      | .timeout => .timeout
    | .call name args =>
      match getFunction env name with
      | none => .fail ("undefined function: " ++ name)
      | some fn =>
        match prev.eArgs args env out with
        | .ok (vals, out1) =>
          if vals.length ≠ fn.params.length then
            .fail ("function " ++ name ++ " expects " ++ toString fn.params.length ++
              " arguments, got " ++ toString vals.length)
          else
            match bindParams name fn.params vals emptyFrame with
            | .error err => .fail err
            | .ok frame =>
              match prev.eStmts fn.body (frame :: env) out1 with
              | .ok (_, out2) => .ok (.void, out2)
              | .fail err => .fail err
              | .timeout => .timeout
        | .fail err => .fail err
        | .timeout => .timeout
  eArgs := fun args env out =>
    match args with
    | [] => .ok ([], out)
    | a :: rest =>
      match prev.eExpr a env out with
      | .ok (v, out1) =>
        match prev.eArgs rest env out1 with
        | .ok (vs, out2) => .ok (v :: vs, out2)
        | .fail err => .fail err
        | .timeout => .timeout
      | .fail err => .fail err
      | .timeout => .timeout
  eStmt := fun s env out =>
    match s with
    | .varDecl declType name value =>
      match prev.eExpr value env out with
      | .ok (v, out1) =>
        if declType.isCompatibleWith v.typeOf then
          .ok (v, setVariable env name v, out1)
        else
          .fail ("type mismatch: cannot assign " ++ v.typeOf.toStr ++
            " to variable of type " ++ declType.toStr)
      | .fail err => .fail err
      | .timeout => .timeout
    | .assign name value =>
      match prev.eExpr value env out with
      | .ok (v, out1) =>
        match getVariable env name with
        | none => .fail ("undefined variable: " ++ name)
        | some _ => .ok (v, setVariable env name v, out1)
      | .fail err => .fail err
      | .timeout => .timeout
    | .ifStmt condition thenBody elseBody =>
      match prev.eExpr condition env out with
      | .ok (c, out1) =>
        match c with
        | .boolean b =>
          if b then
            match prev.eStmts thenBody env out1 with
            | .ok (env2, out2) => .ok (.void, env2, out2)
            | .fail err => .fail err
            | .timeout => .timeout
          else
            match prev.eStmts elseBody env out1 with
            | .ok (env2, out2) => .ok (.void, env2, out2)
            | .fail err => .fail err
            | .timeout => .timeout
        | _ => .fail ("condition must be boolean, got " ++ c.typeOf.toStr)
      | .fail err => .fail err
      | .timeout => .timeout
    | .loopStmt varName fromExpr toExpr body =>
      match prev.eExpr fromExpr env out with
      | .ok (fv, out1) =>
        match prev.eExpr toExpr env out1 with
        | .ok (tv, out2) =>
          match fv with
          | .number fq =>
            match tv with
            | .number tq =>
              match loopCounterValues fuel fq tq with
              | none => .timeout
              | some vals =>
                match prev.eLoopIters varName vals body (emptyFrame :: env) out2 with
                | .ok (env3, out3) => .ok (.void, env3.tail, out3)
                | .fail err => .fail err
                | .timeout => .timeout
            | _ => .fail "loop bounds must be numbers"
          | _ => .fail "loop bounds must be numbers"
        | .fail err => .fail err
        | .timeout => .timeout
      | .fail err => .fail err
      | .timeout => .timeout
    | .funcDecl name params returnType body =>
      .ok (.void, setFunction env name ⟨name, params, returnType, body⟩, out)
    | .printStmt value =>
      match prev.eExpr value env out with
      | .ok (v, out1) => .ok (.void, env, out1 ++ [v.display])
      | .fail err => .fail err
      | .timeout => .timeout
  eStmts := fun stmts env out =>
    match stmts with
    | [] => .ok (env, out)
    | s :: rest =>
      match prev.eStmt s env out with
      | .ok (_, env1, out1) => prev.eStmts rest env1 out1
      | .fail err => .fail err
      | .timeout => .timeout
  eLoopIters := fun varName vals body env out =>
    match vals with
    | [] => .ok (env, out)
    | j :: rest =>
      match prev.eStmts body (setVariable env varName (.number j)) out with
      | .ok (env2, out2) => prev.eLoopIters varName rest body env2 out2
      | .fail err => .fail err
      | .timeout => .timeout

/-- The evaluator at a given fuel. -/
def evaluators (fuel : Nat) : Evaluators :=
  Nat.rec evaluatorsTimeout (fun n prev => evalStep n prev) fuel

/-- Mirrors `evaluateExpression` (see `evalStep`). -/
def evalExpr (fuel : Nat) (e : Expr) (env : Env) (out : List String) :
    Res (Value × List String) :=
  (evaluators fuel).eExpr e env out

/-- Mirrors the left-to-right argument evaluation loop of
`evaluateFunctionCall`. -/
def evalArgs (fuel : Nat) (args : List Expr) (env : Env) (out : List String) :
    Res (List Value × List String) :=
  (evaluators fuel).eArgs args env out

/-- Mirrors `executeStatement` (see `evalStep`). -/
def execStmt (fuel : Nat) (s : Stmt) (env : Env) (out : List String) :
    Res (Value × Env × List String) :=
  (evaluators fuel).eStmt s env out

/-- Mirrors the statement loops of `Interpret` and the construct bodies. -/
def execStmts (fuel : Nat) (stmts : List Stmt) (env : Env) (out : List String) :
    Res (Env × List String) :=
  (evaluators fuel).eStmts stmts env out

/-- Mirrors the `for j := from; j <= to; j++` loop of `executeLoopStatement`
(see `evalStep`). -/
def runLoopIters (fuel : Nat) (varName : String) (vals : List ℚ) (body : List Stmt)
    (env : Env) (out : List String) : Res (Env × List String) :=
  (evaluators fuel).eLoopIters varName vals body env out

/-- Mirrors `NewInterpreter` + `Interpret`: run the program's statements from
a fresh root environment; the observable result is the list of printed lines
(or the first diagnostic). -/
def interpret (fuel : Nat) (p : Program) : Res (List String) :=
  match execStmts fuel p.statements [emptyFrame] [] with
  | .ok (_, out) => .ok out
  | .fail e => .fail e
  | .timeout => .timeout

/-- Outcome of the whole pipeline (cmd/compiler/main.go runs the stages in
this order and stops at the first failing stage). -/
inductive RunResult where
  | lexFail (line column : Nat) (msg : String)
  | parseFail (msg : String)
  | runtimeFail (msg : String)
  | ok (output : List String)
  | timeout
  deriving DecidableEq, Repr

/-- The full pipeline on a source string: tokenize, parse, interpret. -/
def runSource (fuel : Nat) (src : String) : RunResult :=
  match Tokenize src.toList with
  | .fail line column msg => .lexFail line column msg
  | .timeout => .timeout
  | .ok tokens =>
    match Parse tokens with
    | .fail msg => .parseFail msg
    | .timeout => .timeout
    | .ok prog =>
      match interpret fuel prog with
      | .ok out => .ok out
      | .fail msg => .runtimeFail msg
      | .timeout => .timeout

/-! ## Concrete programs from the specification's end-to-end scenarios -/

/-- End-to-end scenario 5 of the specification. -/
def scenario5Src : String :=
  "function greet(text n)\n print \"Hi \" + n\nend\ngreet(\"Ada\")"

/-- End-to-end scenario 6 of the specification (the factorial program). -/
def scenario6Src : String :=
  "number n = 5\nnumber r = 1\nloop i from 1 to n\n r = r * i\nend\nprint r"

/-- A loop whose body assigns to the loop variable. -/
def loopAssignSrc : String :=
  "loop i from 1 to 3\n print i\n i = 100\nend"

/-! ## Parser termination measure and well-behavedness predicates

These support the proof that `Parse` never exhausts its fuel: every recursive
call in the parser either advances the position or moves to a routine of
strictly smaller rank, so the measure below strictly decreases along every
call edge (the rank numbers appear in `ExprParsersGood`/`StmtParsersGood`). -/

/-- Fuel measure of a parser routine of rank `rank` at position `pos` in a
token list of length `len` (positions are capped at `len + 1`: the parser can
sit at most one step past the end, and all behavior beyond is identical). -/
def pmeasure (len pos rank : Nat) : Nat :=
  16 * (len + 1 - min pos (len + 1)) + rank

/-- Well-behavedness of a non-loop parser routine at a fuel budget: it does
not exhaust fuel when the budget covers its measure, and on success it
strictly advances the position and stays within the token list. -/
def GoodS {α : Type} (len budget rank : Nat) (f : Nat → PRes α) : Prop :=
  ∀ pos, (pmeasure len pos rank < budget → f pos ≠ .timeout) ∧
    (∀ a pos', f pos = .ok a pos' → pos < pos' ∧ pos' ≤ len)

/-- Well-behavedness of a loop-style parser routine: as `GoodS`, but a loop
may exit immediately at its entry position (so progress is non-strict, and
the result is bounded by `max pos len`). -/
def GoodL {α : Type} (len budget rank : Nat) (f : Nat → PRes α) : Prop :=
  ∀ pos, (pmeasure len pos rank < budget → f pos ≠ .timeout) ∧
    (∀ a pos', f pos = .ok a pos' → pos ≤ pos' ∧ pos' ≤ max pos len)

/-- Well-behavedness of the whole expression-parser bundle. -/
def ExprParsersGood (len budget : Nat) (P : ExprParsers) : Prop :=
  GoodS len budget 9 P.pExpression ∧
  GoodS len budget 8 P.pLogicalOr ∧
  (∀ left, GoodL len budget 8 (P.pOrLoop left)) ∧
  GoodS len budget 7 P.pLogicalAnd ∧
  (∀ left, GoodL len budget 7 (P.pAndLoop left)) ∧
  GoodS len budget 6 P.pEquality ∧
  (∀ left, GoodL len budget 6 (P.pEqLoop left)) ∧
  GoodS len budget 5 P.pComparison ∧
  (∀ left, GoodL len budget 5 (P.pCmpLoop left)) ∧
  GoodS len budget 4 P.pTerm ∧
  (∀ left, GoodL len budget 4 (P.pTermLoop left)) ∧
  GoodS len budget 3 P.pFactor ∧
  (∀ left, GoodL len budget 3 (P.pFactorLoop left)) ∧
  GoodS len budget 2 P.pUnary ∧
  GoodS len budget 1 P.pPrimary ∧
  (∀ name, GoodS len budget 11 (P.pFunctionCall name)) ∧
  (∀ acc, GoodL len budget 10 (fun pos => P.pArgLoop pos acc))

/-- Well-behavedness of the whole statement-parser bundle. -/
def StmtParsersGood (len budget : Nat) (S : StmtParsers) : Prop :=
  GoodS len budget 11 S.pStatement ∧
  GoodS len budget 10 S.pVariableDeclaration ∧
  GoodS len budget 10 S.pAssignment ∧
  GoodS len budget 10 S.pIfStatement ∧
  (∀ acc, GoodL len budget 12 (fun pos => S.pThenLoop pos acc)) ∧
  (∀ acc, GoodL len budget 12 (fun pos => S.pBodyLoop pos acc)) ∧
  GoodS len budget 10 S.pLoopStatement ∧
  GoodS len budget 10 S.pFunctionDeclaration ∧
  (∀ acc, GoodL len budget 10 (fun pos => S.pParamLoop pos acc)) ∧
  GoodS len budget 10 S.pPrintStatement ∧
  GoodS len budget 10 S.pExpressionStatement

/-! # Theorems

First the definitional unfolding equations of the fuel fixpoints (all proved
by `rfl`; they restate the recursive equations the Go code's call structure
gives), then supporting lemmas, then one theorem per claim. -/

theorem tokenizeGo_succ (n : Nat) : tokenizeGo (n + 1) = tokenizeStep (tokenizeGo n) := rfl

theorem exprParsers_succ (tokens : List Token) (n : Nat) :
    exprParsers tokens (n + 1) = exprParsersStep tokens (exprParsers tokens n) := rfl

theorem stmtParsers_succ (tokens : List Token) (n : Nat) :
    stmtParsers tokens (n + 1) = stmtParsersStep tokens n (stmtParsers tokens n) := rfl

theorem parseProgramLoop_succ (tokens : List Token) (n : Nat) :
    parseProgramLoop tokens (n + 1) = parseProgramStep tokens n (parseProgramLoop tokens n) := rfl

theorem evaluators_succ (n : Nat) : evaluators (n + 1) = evalStep n (evaluators n) := rfl

theorem evaluators_eExpr (n : Nat) : (evaluators n).eExpr = evalExpr n := rfl

theorem evaluators_eStmts (n : Nat) : (evaluators n).eStmts = execStmts n := rfl

theorem evaluators_eLoopIters (n : Nat) : (evaluators n).eLoopIters = runLoopIters n := rfl

/-- Defining equation of `evaluateBinaryExpression`: BOTH operand expressions
are evaluated, left first, before the operator dispatch sees their values. -/
theorem evalExpr_binary (fuel : Nat) (l : Expr) (op : String) (r : Expr) (env : Env)
    (out : List String) :
    evalExpr (fuel + 1) (.binary l op r) env out =
      (match evalExpr fuel l env out with
       | .ok (lv, out1) =>
         match evalExpr fuel r env out1 with
         | .ok (rv, out2) =>
           match applyBinaryOp op lv rv with
           | .ok v => .ok (v, out2)
           | .fail err => .fail err
           | .timeout => .timeout
         | .fail err => .fail err
         | .timeout => .timeout
       | .fail err => .fail err
       | .timeout => .timeout) := rfl

/-- Defining equation of `executeLoopStatement`: bounds are evaluated before
the loop, the float64 counter sequence is fixed from them alone
(fuel-bounded, `.timeout` when the fuel cannot cover it), and the loop runs
in a pushed frame which is dropped afterwards. -/
theorem execStmt_loop (fuel : Nat) (varName : String) (fromExpr toExpr : Expr)
    (body : List Stmt) (env : Env) (out : List String) :
    execStmt (fuel + 1) (.loopStmt varName fromExpr toExpr body) env out =
      (match evalExpr fuel fromExpr env out with
       | .ok (fv, out1) =>
         match evalExpr fuel toExpr env out1 with
         | .ok (tv, out2) =>
           match fv with
           | .number fq =>
             match tv with
             | .number tq =>
               (match loopCounterValues fuel fq tq with
                | none => .timeout
                | some vals =>
                  match runLoopIters fuel varName vals body (emptyFrame :: env) out2 with
                  | .ok (env3, out3) => .ok (.void, env3.tail, out3)
                  | .fail e => .fail e
                  | .timeout => .timeout)
             | _ => .fail "loop bounds must be numbers"
           | _ => .fail "loop bounds must be numbers"
         | .fail e => .fail e
         | .timeout => .timeout
       | .fail e => .fail e
       | .timeout => .timeout) := rfl

/-- Defining equation of one iteration of the `for j := from; j <= to; j++`
loop: the loop variable is rebound to the head of the precomputed counter
list before the body runs, and the tail drives the remaining iterations. -/
theorem runLoopIters_cons (fuel : Nat) (varName : String) (j : ℚ) (rest : List ℚ)
    (body : List Stmt) (env : Env) (out : List String) :
    runLoopIters (fuel + 1) varName (j :: rest) body env out =
      (match execStmts fuel body (setVariable env varName (.number j)) out with
       | .ok (env2, out2) => runLoopIters fuel varName rest body env2 out2
       | .fail e => .fail e
       | .timeout => .timeout) := rfl

/-- The computable `ratFloor` agrees with the mathematical floor. -/
theorem ratFloor_eq_floor (q : ℚ) : ratFloor q = ⌊q⌋ := Rat.floor_def.symm

/-- Claim C1 (code bug): the specification requires an assignment to
overwrite the binding in whichever frame currently holds it, so that the
factorial program of end-to-end scenario 6 prints `120`.  The code's
`Environment.SetVariable` writes the innermost frame unconditionally, so the
loop-body assignment `r = r * i` creates a shadowing binding in the loop
frame (after `executeAssignment`'s chain-walking existence check found the
outer one); the outer `r` keeps the value `1`, and the program prints `1`.
This theorem evaluates the full pipeline at the failing input. -/
theorem factorial_scenario_prints_one :
    runSource 100 scenario6Src = .ok ["1"] ∧ runSource 100 scenario6Src ≠ .ok ["120"] := by
  have h : runSource 100 scenario6Src = .ok ["1"] := by decide
  refine ⟨h, ?_⟩
  rw [h]
  decide

/-- Claim C2 (counterexample): running end-to-end scenario 5 does NOT write
exactly the single line `Hi Ada` - the bare call statement is wrapped in a
`PrintStatement`, and after the call body prints `Hi Ada`, the wrapper prints
the call's `VoidValue` as a second line `void`. -/
theorem bare_call_scenario_not_one_line :
    runSource 100 scenario5Src ≠ .ok ["Hi Ada"] := by
  have h : runSource 100 scenario5Src = .ok ["Hi Ada", "void"] := by decide
  rw [h]
  decide

/-- Claim C2 (amended): running end-to-end scenario 5 writes exactly two
lines, `Hi Ada` and then `void`: the bare expression is parsed as a
`PrintStatement` of the call, the call prints `Hi Ada` and evaluates to
`VoidValue`, and the wrapping print then writes `display(VoidValue) = "void"`. -/
theorem bare_call_scenario_two_lines :
    runSource 100 scenario5Src = .ok ["Hi Ada", "void"] := by decide

/-- Claim C3 (counterexample): the scanner does not halt with an "unexpected
character" diagnostic on `;`, `:`, `{` or `}` - `nextToken` has explicit
cases emitting `TokenSemicolon`, `TokenColon`, `TokenLeftBrace` and
`TokenRightBrace`, so each of these one-character sources scans successfully
into a token. -/
theorem semicolon_scans_as_token :
    Tokenize [';'] = .ok [⟨.semicolon, ";", 1, 1, .null⟩, ⟨.eof, "", 1, 2, .null⟩] ∧
    Tokenize [':'] = .ok [⟨.colon, ":", 1, 1, .null⟩, ⟨.eof, "", 1, 2, .null⟩] ∧
    Tokenize ['{'] = .ok [⟨.leftBrace, "\x7b", 1, 1, .null⟩, ⟨.eof, "", 1, 2, .null⟩] ∧
    Tokenize ['}'] = .ok [⟨.rightBrace, "\x7d", 1, 1, .null⟩, ⟨.eof, "", 1, 2, .null⟩] :=
  ⟨by decide, by decide, by decide, by decide⟩

/-- Claim C3 (amended): the scanner's token-producing punctuation also
includes `{` `}` `;` `:`; a character (code point below 256, as only bytes
reach the classifier) that is not a digit, not a double quote, not a letter
and not one of `+ - * / = < > ! ( ) , { } ; :` makes `nextToken` return the
`TokenError` `"unexpected character: X"` pinned to the current line/column
(first part), on which `Tokenize` halts with that diagnostic (second part;
whitespace never reaches the dispatch, so the one-character-source statement
additionally assumes the character is not whitespace). -/
theorem unexpected_character_diagnostic :
    (∀ (st : LexState) (c : Char) (rest : List Char), st.remaining = c :: rest →
      c.toNat < 256 → goIsDigit c = false → c ≠ '"' → goIsLetter c = false →
      c ∉ ['+', '-', '*', '/', '=', '<', '>', '!', '(', ')', '{', '}', ',', ';', ':'] →
      nextToken st =
        (⟨.error, "unexpected character: " ++ c.toString, st.line, st.column, .null⟩, st)) ∧
    (∀ c : Char, c.toNat < 256 → goIsSpace c = false → goIsDigit c = false → c ≠ '"' →
      goIsLetter c = false →
      c ∉ ['+', '-', '*', '/', '=', '<', '>', '!', '(', ')', '{', '}', ',', ';', ':'] →
      Tokenize [c] = .fail 1 1 ("unexpected character: " ++ c.toString)) := by
  have part1 : ∀ (st : LexState) (c : Char) (rest : List Char), st.remaining = c :: rest →
      c.toNat < 256 → goIsDigit c = false → c ≠ '"' → goIsLetter c = false →
      c ∉ ['+', '-', '*', '/', '=', '<', '>', '!', '(', ')', '{', '}', ',', ';', ':'] →
      nextToken st =
        (⟨.error, "unexpected character: " ++ c.toString, st.line, st.column, .null⟩, st) := by
    intro st c rest hrem h256 hd hq hl hp
    simp only [List.mem_cons, List.mem_singleton, not_or] at hp
    obtain ⟨hc1, hc2, hc3, hc4, hc5, hc6, hc7, hc8, hc9, hc10, hc11, hc12, hc13, hc14, hc15⟩ := hp
    have hcur : currentChar st = c := by
      unfold currentChar
      rw [hrem]
    unfold nextToken
    rw [hcur]
    simp [hd, hl, hq, hc1, hc2, hc3, hc4, hc5, hc6, hc7, hc8, hc9, hc10, hc11, hc12, hc13,
      hc14, hc15]
  refine ⟨part1, ?_⟩
  intro c h256 hsp hd hq hl hp
  show tokenizeGo ([c].length + 1) ⟨[c], 1, 1⟩ [] = _
  rw [List.length_singleton, tokenizeGo_succ]
  unfold tokenizeStep
  have hskip : skipWhitespace ⟨[c], 1, 1⟩ = ⟨[c], 1, 1⟩ := by
    unfold skipWhitespace skipWsGo
    simp [hsp]
  simp only [hskip]
  have hnext := part1 ⟨[c], 1, 1⟩ c [] rfl h256 hd hq hl hp
  simp [hnext]

/-- Witness for `unexpected_character_diagnostic` at the character `@`. -/
theorem unexpected_character_diagnostic_witness :
    (((⟨['@'], 3, 7⟩ : LexState).remaining = '@' :: [] ∧ '@'.toNat < 256 ∧
      goIsDigit '@' = false ∧ '@' ≠ '"' ∧ goIsLetter '@' = false ∧
      '@' ∉ ['+', '-', '*', '/', '=', '<', '>', '!', '(', ')', '{', '}', ',', ';', ':']) ∧
     nextToken ⟨['@'], 3, 7⟩ = (⟨.error, "unexpected character: @", 3, 7, .null⟩, ⟨['@'], 3, 7⟩)) ∧
    Tokenize ['@'] = .fail 1 1 "unexpected character: @" := by
  refine ⟨⟨⟨rfl, by decide, by decide, by decide, by decide, by decide⟩, ?_⟩, ?_⟩
  · exact unexpected_character_diagnostic.1 ⟨['@'], 3, 7⟩ '@' [] rfl (by decide) (by decide)
      (by decide) (by decide) (by decide)
  · exact unexpected_character_diagnostic.2 '@' (by decide) (by decide) (by decide) (by decide)
      (by decide) (by decide)

/-- Claim C4 (counterexample): the scanner accepts the multi-dot lexeme
`1.2.3` as a single number token, but the evaluator does NOT fail with
"invalid number" on it: `fmt.Sscanf(str, "%f", &num)` scans the longest
float prefix `1.2` and reports success, so the literal evaluates to the
`NumberValue` 1.2 (= 6/5). -/
theorem multi_dot_number_token_evaluates :
    Tokenize "1.2.3".toList =
      .ok [⟨.number, "1.2.3", 1, 1, .str "1.2.3"⟩, ⟨.eof, "", 1, 6, .null⟩] ∧
    evaluateLiteral (.str "1.2.3") .number = .ok (.number (6 / 5)) :=
  ⟨by decide, by decide⟩

/-- Claim C4 (amended): every number lexeme the scanner can produce (it
starts with a digit) is accepted by the evaluator's `Sscanf`-based parse,
which reads the longest `digits [. digits]` prefix; the "invalid number"
diagnostic is unreachable for scanner-produced number tokens. -/
theorem number_literal_never_invalid (s : List Char) (d : Char)
    (h1 : s.head? = some d) (h2 : goIsDigit d = true) :
    ∃ q : ℚ, sscanfFloat s = some q ∧
      evaluateLiteral (.str s.asString) .number = .ok (.number q) := by
  cases s with
  | nil => simp at h1
  | cons c cs =>
    have hcd : c = d := by
      simp only [List.head?] at h1
      exact Option.some.inj h1
    subst hcd
    have hds : (c :: cs).takeWhile goIsDigit = c :: cs.takeWhile goIsDigit := by
      simp [List.takeWhile_cons, h2]
    have hsome : ∃ q : ℚ, sscanfFloat (c :: cs) = some q := by
      unfold sscanfFloat
      rw [hds]
      dsimp only
      split
      · simp
      · simp
    obtain ⟨q, hq⟩ := hsome
    refine ⟨q, hq, ?_⟩
    have hq2 : sscanfFloat ((c :: cs).asString.toList) = some q := hq
    unfold evaluateLiteral
    dsimp only
    rw [hq2]

/-- Witness for `number_literal_never_invalid` at the lexeme `1.2.3`. -/
theorem number_literal_never_invalid_witness :
    ("1.2.3".toList.head? = some '1' ∧ goIsDigit '1' = true) ∧
    (∃ q : ℚ, sscanfFloat "1.2.3".toList = some q ∧
      evaluateLiteral (.str "1.2.3".toList.asString) .number = .ok (.number q)) :=
  ⟨⟨by decide, by decide⟩,
   number_literal_never_invalid "1.2.3".toList '1' (by decide) (by decide)⟩

/-- Claim C7: `and`/`or` expressions evaluate BOTH operands, left first, and
only then dispatch on the operator; a diagnostic from the right operand
therefore propagates even when the left operand's value (for example
`false` for `and`) would already determine the result under short-circuit
evaluation. -/
theorem and_or_evaluates_both_sides (fuel : Nat) (op : String)
    (hop : op = "and" ∨ op = "or") (l r : Expr) (env : Env) (out out1 : List String)
    (lv : Value) (e : String)
    (hl : evalExpr fuel l env out = .ok (lv, out1))
    (hr : evalExpr fuel r env out1 = .fail e) :
    evalExpr (fuel + 1) (.binary l op r) env out = .fail e := by
  rw [evalExpr_binary, hl]
  dsimp only
  rw [hr]

/-- Witness for `and_or_evaluates_both_sides`: `false and (1 / 0)` reports
"division by zero" instead of short-circuiting to `false`. -/
theorem and_or_evaluates_both_sides_witness :
    (("and" = "and" ∨ ("and" : String) = "or") ∧
     evalExpr 2 (.lit (.bool false) .boolean) [emptyFrame] [] = .ok (.boolean false, []) ∧
     evalExpr 2 (.binary (.lit (.str "1") .number) "/" (.lit (.str "0") .number))
       [emptyFrame] [] = .fail "division by zero") ∧
    evalExpr 3 (.binary (.lit (.bool false) .boolean) "and"
      (.binary (.lit (.str "1") .number) "/" (.lit (.str "0") .number))) [emptyFrame] [] =
      .fail "division by zero" := by
  refine ⟨⟨Or.inl rfl, by decide, by decide⟩, ?_⟩
  exact and_or_evaluates_both_sides 2 "and" (Or.inl rfl) _ _ [emptyFrame] [] []
    (.boolean false) "division by zero" (by decide) (by decide)

/-- Claim C8: the evaluator is deterministic - the embedding of the
interpreter is a pure function of the program (and the fuel totality bound),
so two runs from a fresh root environment produce identical output.  This is
faithful to the Go code: the pipeline is single-threaded, reads no clock or
randomness, and its only maps are read by key lookup, never iterated, so Go's
randomized map iteration order cannot influence the printed lines. -/
theorem interpreter_deterministic (fuel : Nat) (p : Program) (o1 o2 : Res (List String))
    (h1 : interpret fuel p = o1) (h2 : interpret fuel p = o2) : o1 = o2 := by
  rw [← h1, ← h2]

/-- Witness for `interpreter_deterministic` on a one-statement program. -/
theorem interpreter_deterministic_witness :
    (interpret 3 ⟨[.printStmt (.lit (.str "7") .number)]⟩ = .ok ["7"] ∧
     interpret 3 ⟨[.printStmt (.lit (.str "7") .number)]⟩ = .ok ["7"]) ∧
    (Res.ok ["7"] : Res (List String)) = .ok ["7"] := by
  have h : interpret 3 ⟨[.printStmt (.lit (.str "7") .number)]⟩ = .ok ["7"] := by decide
  exact ⟨⟨h, h⟩, interpreter_deterministic 3 _ _ _ h h⟩

/-- Claim C10: at the start of every loop iteration the loop variable is
rebound in the innermost (loop) frame from the head of the precomputed
counter list - data of the executor that no program construct can reach or
modify - and the remaining iterations are driven by the tail of that list,
which the body's effects (threaded only through the environment) cannot
touch.  Hence assigning to the loop variable inside the body changes neither
the number of iterations nor the value the variable holds at the start of
any later iteration; the third part shows this end to end: a body that sets
`i = 100` still runs three times printing `1`, `2`, `3`. -/
theorem loop_variable_rebound (fuel : Nat) (varName : String) (j : ℚ) (rest : List ℚ)
    (body : List Stmt) (f : Frame) (rf : List Frame) (out : List String) :
    (runLoopIters (fuel + 1) varName (j :: rest) body (f :: rf) out =
      (match execStmts fuel body (setVariable (f :: rf) varName (.number j)) out with
       | .ok (env2, out2) => runLoopIters fuel varName rest body env2 out2
       | .fail e => .fail e
       | .timeout => .timeout)) ∧
    getVariable (setVariable (f :: rf) varName (.number j)) varName = some (.number j) ∧
    runSource 100 loopAssignSrc = .ok ["1", "2", "3"] := by
  refine ⟨runLoopIters_cons fuel varName j rest body (f :: rf) out, ?_, by decide⟩
  unfold setVariable getVariable
  simp

/-- Claim C5 (counterexample): token columns do not point at the token's
first character once whitespace precedes it.  The identifier in the source
consisting of two spaces followed by `x` carries column 5, not 3 (the claim's
own example), and the first token after a newline carries column 2, not 1:
`skipWhitespace` increments the column and then calls `advance`, which
increments it again. -/
theorem token_column_counterexample :
    (Tokenize "  x".toList =
      .ok [⟨.identifier, "x", 1, 5, .str "x"⟩, ⟨.eof, "", 1, 6, .null⟩]) ∧ (5 : Nat) ≠ 3 ∧
    (Tokenize "\nx".toList =
      .ok [⟨.identifier, "x", 2, 2, .str "x"⟩, ⟨.eof, "", 2, 3, .null⟩]) ∧ (2 : Nat) ≠ 1 :=
  ⟨by decide, by decide, by decide, by decide⟩

/-- Each skipped non-newline whitespace character advances the column cursor
by 2: once in `skipWhitespace`'s own `column++` and once in the `advance` it
then calls. -/
theorem skipWsGo_spaces (k : Nat) (c : Char) (rest : List Char) (line col : Nat)
    (hc : goIsSpace c = false) :
    skipWsGo (List.replicate k ' ' ++ c :: rest) line col = ⟨c :: rest, line, col + 2 * k⟩ := by
  induction k generalizing col with
  | zero => simp [skipWsGo, hc]
  | succ n ih =>
    rw [List.replicate_succ, List.cons_append]
    have hstep : ∀ (l : List Char) (line col : Nat),
        skipWsGo (' ' :: l) line col = skipWsGo l line (col + 1 + 1) := by
      intro l line col
      simp [skipWsGo, goIsSpace]
    rw [hstep, ih, show col + 1 + 1 + 2 * n = col + 2 * (n + 1) from by omega]

/-- Claim C5 (amended): lines and columns are 1-based, but neither always
points at the token's first character.  The column cursor over-advances on
whitespace - each skipped space contributes 2 columns and a newline resets
the following column to 2 rather than 1: an identifier preceded by `k` spaces
carries column `1 + 2k` (a scanner whose columns point at the first character
would give `1 + k`), and after a leading newline and `k` spaces it carries
line 2 and column `2 + 2k` (first two parts).  And a token's line is the
scanner's line when the token is emitted, which for a text token with an
embedded newline is the line of its CLOSING quote, not of its first
character: `readText` stores `l.line` only after scanning the content, so
the token for the source `"a\nb"`, whose first character is on line 1,
carries line 2 (third part; its column 1 is that of the opening quote, as no
whitespace precedes it). -/
theorem token_column_whitespace_shift :
    (∀ k : Nat, Tokenize (List.replicate k ' ' ++ ['x']) =
      .ok [⟨.identifier, "x", 1, 1 + 2 * k, .str "x"⟩,
           ⟨.eof, "", 1, 1 + 2 * k + 1, .null⟩]) ∧
    (∀ k : Nat, Tokenize ('\n' :: (List.replicate k ' ' ++ ['x'])) =
      .ok [⟨.identifier, "x", 2, 2 + 2 * k, .str "x"⟩,
           ⟨.eof, "", 2, 2 + 2 * k + 1, .null⟩]) ∧
    (Tokenize ['"', 'a', '\n', 'b', '"'] =
      .ok [⟨.text, "a\nb", 2, 1, .str "a\nb"⟩, ⟨.eof, "", 2, 4, .null⟩]) := by
  have main : ∀ (k fuel line col : Nat),
      tokenizeGo (fuel + 2) ⟨List.replicate k ' ' ++ ['x'], line, col⟩ [] =
        .ok [⟨.identifier, "x", line, col + 2 * k, .str "x"⟩,
             ⟨.eof, "", line, col + 2 * k + 1, .null⟩] := by
    intro k fuel line col
    have hskip0 : skipWhitespace ⟨List.replicate k ' ' ++ ['x'], line, col⟩ =
        ⟨['x'], line, col + 2 * k⟩ := by
      unfold skipWhitespace
      exact skipWsGo_spaces k 'x' [] line col (by decide)
    obtain ⟨d, ds, hdds⟩ : ∃ d ds, List.replicate k ' ' ++ ['x'] = d :: ds := by
      cases k with
      | zero => exact ⟨'x', [], rfl⟩
      | succ n => exact ⟨' ', _, by rw [List.replicate_succ, List.cons_append]⟩
    rw [tokenizeGo_succ]
    unfold tokenizeStep
    rw [hdds] at hskip0 ⊢
    dsimp only
    rw [hskip0]
    rfl
  refine ⟨?_, ?_, by decide⟩
  · intro k
    have hlen : (List.replicate k ' ' ++ ['x']).length + 1 = k + 2 := by simp
    unfold Tokenize
    rw [hlen]
    exact main k k 1 1
  · intro k
    have hlen : ('\n' :: (List.replicate k ' ' ++ ['x'])).length + 1 = k + 2 + 1 := by simp
    unfold Tokenize
    rw [hlen, tokenizeGo_succ]
    have hskip2 : skipWhitespace ⟨'\n' :: (List.replicate k ' ' ++ ['x']), 1, 1⟩ =
        ⟨['x'], 2, 2 + 2 * k⟩ := by
      have h1 : skipWhitespace ⟨'\n' :: (List.replicate k ' ' ++ ['x']), 1, 1⟩ =
          skipWsGo (List.replicate k ' ' ++ ['x']) (1 + 1) (1 + 1) := by
        unfold skipWhitespace
        simp [skipWsGo, goIsSpace]
      rw [h1, skipWsGo_spaces k 'x' [] (1 + 1) (1 + 1) (by decide)]
    unfold tokenizeStep
    dsimp only
    rw [hskip2]
    rfl

/-- `log2Fuel` underestimates: `2 ^ log2Fuel fuel n ≤ n` once the fuel covers
`n`. -/
theorem two_pow_log2Fuel_le (fuel : Nat) :
    ∀ n : Nat, 1 ≤ n → n ≤ fuel → 2 ^ log2Fuel fuel n ≤ n := by
  induction fuel with
  | zero => intro n h1 h2; omega
  | succ f ih =>
    intro n h1 h2
    by_cases hn : n ≤ 1
    · have h0 : log2Fuel (f + 1) n = 0 := by simp [log2Fuel, hn]
      rw [h0, pow_zero]
      exact h1
    · have hrec : log2Fuel (f + 1) n = log2Fuel f (n / 2) + 1 := by simp [log2Fuel, hn]
      rw [hrec, pow_succ]
      have := ih (n / 2) (by omega) (by omega)
      omega

theorem two_pow_natLog2_le (n : Nat) (hn : 1 ≤ n) : 2 ^ natLog2 n ≤ n :=
  two_pow_log2Fuel_le n n hn (le_refl n)

theorem pow2_pos (e : ℤ) : 0 < pow2 e := by
  unfold pow2
  split
  · positivity
  · positivity

theorem fl64scale_pos (q : ℚ) : 0 < fl64scale q := by
  unfold fl64scale
  split
  · exact pow2_pos _
  · exact pow2_pos _

theorem ratAbs_eq_abs (q : ℚ) : ratAbs q = |q| := by
  unfold ratAbs
  by_cases h : q < 0
  · rw [if_pos h, abs_of_neg h]
  · rw [if_neg h, abs_of_nonneg (not_lt.mp h)]

/-- `roundEven` is the identity on integers. -/
theorem roundEven_intCast (m : ℤ) : roundEven (m : ℚ) = m := by
  unfold roundEven
  rw [show ratFloor (m : ℚ) = m from by rw [ratFloor_eq_floor, Int.floor_intCast]]
  rw [if_pos (by norm_num)]

/-- A value whose float64 significand scaling is exactly an integer is a
float64 value: `fl64` fixes it. -/
theorem fl64_eq_of_int_scaled (q : ℚ) (m : ℤ) (h : q * fl64scale q = (m : ℚ)) :
    fl64 q = q := by
  unfold fl64
  by_cases h0 : q = 0
  · rw [if_pos h0, h0]
  · rw [if_neg h0, h, roundEven_intCast, ← h, mul_div_assoc,
      div_self (ne_of_gt (fl64scale_pos q)), mul_one]

/-- Integers of magnitude at most `2 ^ 53` are exact float64 values. -/
theorem fl64_int (k : ℤ) (hk : k.natAbs ≤ 2 ^ 53) : fl64 (k : ℚ) = (k : ℚ) := by
  by_cases h0 : k = 0
  · subst h0
    unfold fl64
    rw [Int.cast_zero, if_pos rfl]
  · have hnum : ((k : ℚ)).num = k := Rat.intCast_num k
    have hden : ((k : ℚ)).den = 1 := Rat.intCast_den k
    have hk1 : 1 ≤ k.natAbs := by omega
    have hle : 2 ^ natLog2 k.natAbs ≤ k.natAbs := two_pow_natLog2_le _ hk1
    have ha53 : natLog2 k.natAbs ≤ 53 := by
      by_contra hc
      push_neg at hc
      have h54 : (2 : ℕ) ^ 54 ≤ k.natAbs :=
        le_trans (Nat.pow_le_pow_right (by norm_num) hc) hle
      have hlt : (2 : ℕ) ^ 53 < 2 ^ 54 := by norm_num
      omega
    have habs : ratAbs (k : ℚ) = ((k.natAbs : ℕ) : ℚ) := by
      rw [ratAbs_eq_abs, Int.cast_natAbs, Int.cast_abs]
    have hcase : ∀ e : ℤ, e ≤ 52 →
        (k : ℚ) * pow2 (52 - e) = ((k * 2 ^ (52 - e).toNat : ℤ) : ℚ) := by
      intro e he
      unfold pow2
      rw [if_pos (by omega)]
      push_cast
      ring
    have hhalf : k.natAbs = 2 ^ 53 → (k : ℚ) * pow2 (52 - 53 : ℤ) = ((k / 2 : ℤ) : ℚ) := by
      intro heq
      have hdvd : (2 : ℤ) ∣ k := by
        apply Int.dvd_natAbs.mp
        rw [heq]
        push_cast
        exact Dvd.intro (2 ^ 52) (by ring)
      rw [show (52 - 53 : ℤ) = -1 from by norm_num, show pow2 (-1 : ℤ) = 1 / 2 from by decide]
      have h2 : ((k / 2 : ℤ) : ℚ) * 2 = (k : ℚ) := by
        exact_mod_cast congrArg (fun z : ℤ => (z : ℚ)) (Int.ediv_mul_cancel hdvd)
      linarith
    have hpow53 : pow2 (53 : ℤ) = ((2 ^ 53 : ℕ) : ℚ) := by decide
    obtain ⟨m, hm⟩ : ∃ m : ℤ, (k : ℚ) * fl64scale (k : ℚ) = (m : ℚ) := by
      unfold fl64scale qlog2
      rw [hnum, hden]
      simp only [show natLog2 1 = 0 from rfl, Nat.cast_zero, sub_zero]
      rw [habs]
      by_cases hb1 : pow2 ((natLog2 k.natAbs : ℤ) + 1) ≤ ((k.natAbs : ℕ) : ℚ)
      · rw [if_pos hb1]
        by_cases hA52 : (natLog2 k.natAbs : ℤ) + 1 ≤ 52
        · rw [if_pos (by omega)]
          exact ⟨_, hcase _ hA52⟩
        · have haor : (natLog2 k.natAbs : ℤ) = 52 ∨ (natLog2 k.natAbs : ℤ) = 53 := by
            have h53' : (natLog2 k.natAbs : ℤ) ≤ 53 := by exact_mod_cast ha53
            omega
          rcases haor with h52 | h53
          · rw [h52, show ((52 : ℤ) + 1) = 53 from by norm_num] at hb1 ⊢
            rw [if_pos (by omega)]
            rw [hpow53] at hb1
            have hge : (2 : ℕ) ^ 53 ≤ k.natAbs := by exact_mod_cast hb1
            exact ⟨k / 2, hhalf (le_antisymm hk hge)⟩
          · exfalso
            rw [h53, show ((53 : ℤ) + 1) = 54 from by norm_num,
              show pow2 (54 : ℤ) = ((2 ^ 54 : ℕ) : ℚ) from by decide] at hb1
            have hge : (2 : ℕ) ^ 54 ≤ k.natAbs := by exact_mod_cast hb1
            have hlt : (2 : ℕ) ^ 53 < 2 ^ 54 := by norm_num
            omega
      · rw [if_neg hb1]
        by_cases hb2 : pow2 ((natLog2 k.natAbs : ℤ)) ≤ ((k.natAbs : ℕ) : ℚ)
        · rw [if_pos hb2]
          by_cases hA52 : (natLog2 k.natAbs : ℤ) ≤ 52
          · rw [if_pos (by omega)]
            exact ⟨_, hcase _ hA52⟩
          · have hA153 : (natLog2 k.natAbs : ℤ) = 53 := by
              have : (natLog2 k.natAbs : ℤ) ≤ 53 := by exact_mod_cast ha53
              omega
            rw [hA153] at hb2 ⊢
            rw [if_pos (by omega)]
            rw [hpow53] at hb2
            have hge : (2 : ℕ) ^ 53 ≤ k.natAbs := by exact_mod_cast hb2
            exact ⟨k / 2, hhalf (le_antisymm hk hge)⟩
        · rw [if_neg hb2, if_pos (by omega)]
          exact ⟨_, hcase _ (by
            have : (natLog2 k.natAbs : ℤ) ≤ 53 := by exact_mod_cast ha53
            omega)⟩
    exact fl64_eq_of_int_scaled _ m hm

/-- An exhausted-guard loop produces no iteration values. -/
theorem loopCounterValues_exit (fuel : Nat) (j toV : ℚ) (h : toV < j) (hf : 1 ≤ fuel) :
    loopCounterValues fuel j toV = some [] := by
  cases fuel with
  | zero => omega
  | succ f => simp [loopCounterValues, not_le.mpr h]

/-- For integer bounds within the exact float64 range, the counter takes
exactly the values `A, A+1, ..., B` (the increment never rounds), and the
stated fuel suffices. -/
theorem loopCounterValues_int (B : ℤ) (hB : B + 1 ≤ 2 ^ 53) :
    ∀ (fuel : Nat) (A : ℤ), -(2 ^ 53) ≤ A → A ≤ B → (B - A).toNat + 2 ≤ fuel →
      loopCounterValues fuel (A : ℚ) (B : ℚ) =
        some ((List.range (B - A + 1).toNat).map fun (k : ℕ) => (A : ℚ) + (k : ℚ)) := by
  intro fuel
  induction fuel with
  | zero => intro A _ _ hf; omega
  | succ f ih =>
    intro A hA hAB hf
    have hguard : (A : ℚ) ≤ (B : ℚ) := by exact_mod_cast hAB
    rw [show loopCounterValues (f + 1) (A : ℚ) (B : ℚ) =
      (if (A : ℚ) ≤ (B : ℚ) then
        (loopCounterValues f (fl64 ((A : ℚ) + 1)) (B : ℚ)).map (fun vs => (A : ℚ) :: vs)
      else some []) from rfl]
    rw [if_pos hguard]
    have hfl : fl64 ((A : ℚ) + 1) = ((A + 1 : ℤ) : ℚ) := by
      rw [show ((A : ℚ) + 1) = ((A + 1 : ℤ) : ℚ) from by push_cast; ring]
      exact fl64_int (A + 1) (by omega)
    rw [hfl]
    by_cases hAB2 : A = B
    · subst hAB2
      rw [loopCounterValues_exit f _ _ (by exact_mod_cast (by omega : A < A + 1)) (by omega)]
      rw [show (A - A + 1).toNat = 1 from by omega,
        show List.range 1 = [0] from rfl]
      norm_num
    · have hlt : A < B := lt_of_le_of_ne hAB hAB2
      rw [ih (A + 1) (by omega) (by omega) (by omega)]
      rw [show B - (A + 1) + 1 = B - A from by ring,
        show (B - A + 1).toNat = (B - A).toNat + 1 from by omega]
      rw [List.range_succ_eq_map, List.map_cons, List.map_map, Option.map_some']
      congr 2
      · norm_num
      · apply List.map_congr_left
        intro x _
        show ((A + 1 : ℤ) : ℚ) + (x : ℚ) = (A : ℚ) + ((Nat.succ x : ℕ) : ℚ)
        push_cast
        ring

/-- Once the counter reaches `2 ^ 53` the float64 increment stalls
(`fl64 (2 ^ 53 + 1) = 2 ^ 53`), so the Go loop never terminates: no fuel
produces the value list. -/
theorem loopCounterValues_stall (fuel : Nat) :
    loopCounterValues fuel (9007199254740992 : ℚ) 9007199254740992 = none := by
  induction fuel with
  | zero => rfl
  | succ f ih =>
    rw [show loopCounterValues (f + 1) (9007199254740992 : ℚ) 9007199254740992 =
      (if (9007199254740992 : ℚ) ≤ 9007199254740992 then
        (loopCounterValues f (fl64 ((9007199254740992 : ℚ) + 1)) 9007199254740992).map
          (fun vs => (9007199254740992 : ℚ) :: vs)
      else some []) from rfl]
    rw [if_pos (le_refl _),
      show fl64 ((9007199254740992 : ℚ) + 1) = (9007199254740992 : ℚ) from by decide, ih]
    rfl

/-- Evaluating the number literal `9007199254740992` (`2 ^ 53`). -/
theorem evalExpr_big_lit (n : Nat) (env : Env) (out : List String) :
    evalExpr (n + 1) (.lit (.str "9007199254740992") .number) env out =
      .ok (.number 9007199254740992, out) := by
  show (evalStep n (evaluators n)).eExpr _ _ _ = _
  dsimp only [evalStep]
  rw [show evaluateLiteral (.str "9007199254740992") .number =
    .ok (.number 9007199254740992) from by decide]

/-- The loop `loop i from 9007199254740992 to 9007199254740992` (bounds
`2 ^ 53`) exhausts EVERY fuel: the embedding's image of the Go loop never
terminating. -/
theorem execStmt_stall_loop : ∀ fuel : Nat,
    execStmt fuel (.loopStmt "i" (.lit (.str "9007199254740992") .number)
      (.lit (.str "9007199254740992") .number) []) [emptyFrame] [] = .timeout := by
  intro fuel
  match fuel with
  | 0 => rfl
  | 1 => rfl
  | (n + 2) =>
    show (evalStep (n + 1) (evaluators (n + 1))).eStmt _ _ _ = _
    dsimp only [evalStep]
    rw [evaluators_eExpr, evalExpr_big_lit n]
    dsimp only
    rw [evalExpr_big_lit n]
    dsimp only
    rw [loopCounterValues_stall (n + 1)]

/-- Claim C6 (counterexample): with bound expressions both evaluating to the
integer `2 ^ 53 = 9007199254740992` (so `A = B`, and the claim promises
exactly one iteration), the loop does not run once and stop: the float64
increment rounds `2 ^ 53 + 1` back to `2 ^ 53` (ties to even), the Go loop
never terminates, and the embedding times out - here concretely at fuel 10,
at which the otherwise identical loop over `1 to 1` completes. -/
theorem loop_at_2pow53_not_one_iteration :
    fl64 ((9007199254740992 : ℚ) + 1) = 9007199254740992 ∧
    execStmt 10 (.loopStmt "i" (.lit (.str "9007199254740992") .number)
      (.lit (.str "9007199254740992") .number) []) [emptyFrame] [] = .timeout ∧
    execStmt 10 (.loopStmt "i" (.lit (.str "1") .number) (.lit (.str "1") .number) [])
      [emptyFrame] [] = .ok (.void, [emptyFrame], []) :=
  ⟨by decide, rfl, rfl⟩

/-- Claim C6 (amended): the loop counter is a float64.  The evaluator fixes
the counter sequence from the bounds before the first iteration and folds the
body over it (first part, the defining equation of `executeLoopStatement`
with the fuel-bounded counter enumeration).  For integer bounds `A ≤ B` in
the range where float64 increments are exact (`-2 ^ 53 ≤ A` and
`B + 1 ≤ 2 ^ 53`), the sequence is exactly `A, A+1, ..., B` with `B - A + 1`
entries - the body executes exactly `B - A + 1` times when no iteration
fails (second part) - and when `A > B` it is empty (third part).  Outside
that range the count can diverge: at `A = B = 2 ^ 53` the increment stalls
(`fl64 (2 ^ 53 + 1) = 2 ^ 53`) and the loop never terminates: the statement
times out at every fuel (fourth part). -/
theorem loop_iteration_count (fuel : Nat) (varName : String) (fromExpr toExpr : Expr)
    (body : List Stmt) (env : Env) (out out1 out2 : List String) (fq tq : ℚ) (A B : ℤ)
    (hf : evalExpr fuel fromExpr env out = .ok (.number fq, out1))
    (ht : evalExpr fuel toExpr env out1 = .ok (.number tq, out2))
    (hA : fq = (A : ℚ)) (hB : tq = (B : ℚ)) :
    (execStmt (fuel + 1) (.loopStmt varName fromExpr toExpr body) env out =
      (match loopCounterValues fuel fq tq with
       | none => .timeout
       | some vals =>
         match runLoopIters fuel varName vals body (emptyFrame :: env) out2 with
         | .ok (env3, out3) => .ok (.void, env3.tail, out3)
         | .fail e => .fail e
         | .timeout => .timeout)) ∧
    (A ≤ B → -(2 ^ 53) ≤ A → B + 1 ≤ 2 ^ 53 → (B - A).toNat + 2 ≤ fuel →
      loopCounterValues fuel fq tq =
        some ((List.range (B - A + 1).toNat).map fun (k : ℕ) => fq + (k : ℚ)) ∧
      ((List.range (B - A + 1).toNat).map fun (k : ℕ) => fq + (k : ℚ)).length =
        (B - A + 1).toNat) ∧
    (B < A → 1 ≤ fuel → loopCounterValues fuel fq tq = some []) ∧
    (∀ g : Nat, execStmt g (.loopStmt "i" (.lit (.str "9007199254740992") .number)
      (.lit (.str "9007199254740992") .number) []) [emptyFrame] [] = .timeout) := by
  subst hA hB
  refine ⟨?_, ?_, ?_, execStmt_stall_loop⟩
  · rw [execStmt_loop, hf]
    dsimp only
    rw [ht]
  · intro hAB hlo hhi hfuel
    refine ⟨loopCounterValues_int B hhi fuel A hlo hAB hfuel, by simp⟩
  · intro hBA hfuel
    exact loopCounterValues_exit fuel _ _ (by exact_mod_cast hBA) hfuel

/-- Witness for `loop_iteration_count`: the loop `loop i from 1 to 3` with an
empty body. -/
theorem loop_iteration_count_witness :
    (evalExpr 5 (.lit (.str "1") .number) [emptyFrame] [] = .ok (.number 1, []) ∧
     evalExpr 5 (.lit (.str "3") .number) [emptyFrame] [] = .ok (.number 3, []) ∧
     (1 : ℚ) = ((1 : ℤ) : ℚ) ∧ (3 : ℚ) = ((3 : ℤ) : ℚ)) ∧
    ((execStmt 6 (.loopStmt "i" (.lit (.str "1") .number) (.lit (.str "3") .number) [])
        [emptyFrame] [] =
      (match loopCounterValues 5 1 3 with
       | none => .timeout
       | some vals =>
         match runLoopIters 5 "i" vals [] (emptyFrame :: [emptyFrame]) [] with
         | .ok (env3, out3) => .ok (.void, env3.tail, out3)
         | .fail e => .fail e
         | .timeout => .timeout)) ∧
     ((1 : ℤ) ≤ 3 → -(2 ^ 53) ≤ (1 : ℤ) → (3 : ℤ) + 1 ≤ 2 ^ 53 →
        ((3 : ℤ) - 1).toNat + 2 ≤ 5 →
        loopCounterValues 5 1 3 =
          some ((List.range ((3 : ℤ) - 1 + 1).toNat).map fun (k : ℕ) => (1 : ℚ) + (k : ℚ)) ∧
        ((List.range ((3 : ℤ) - 1 + 1).toNat).map fun (k : ℕ) => (1 : ℚ) + (k : ℚ)).length =
          ((3 : ℤ) - 1 + 1).toNat) ∧
     ((3 : ℤ) < 1 → 1 ≤ 5 → loopCounterValues 5 1 3 = some []) ∧
     (∀ g : Nat, execStmt g (.loopStmt "i" (.lit (.str "9007199254740992") .number)
       (.lit (.str "9007199254740992") .number) []) [emptyFrame] [] = .timeout)) := by
  refine ⟨⟨by decide, by decide, by norm_num, by norm_num⟩, ?_⟩
  exact loop_iteration_count 5 "i" (.lit (.str "1") .number) (.lit (.str "3") .number) []
    [emptyFrame] [] [] [] 1 3 1 3 (by decide) (by decide) (by norm_num) (by norm_num)

/-! ## Parser termination: the fuel supplied by `Parse` is never exhausted -/

/-- A current token that is not the end-of-input kind lies inside the list
(`current` synthesizes the EOF token at or past the end). -/
theorem currentTok_lt_length {tokens : List Token} {pos : Nat}
    (h : (currentTok tokens pos).type ≠ .eof) : pos < tokens.length := by
  by_contra hc
  push_neg at hc
  apply h
  unfold currentTok
  rw [if_pos (by omega)]
  rfl

theorem pm_lt {L pos r1 r2 budget : Nat} (h : pmeasure L pos r1 < budget + 1)
    (hr : r2 < r1) : pmeasure L pos r2 < budget := by
  unfold pmeasure at h ⊢
  omega

theorem pm_step {L pos r1 r2 budget : Nat} (h : pmeasure L pos r1 < budget + 1)
    (hr : r2 < r1) : pmeasure L (pos + 1) r2 < budget := by
  unfold pmeasure at h ⊢
  omega

theorem pm_adv {L pos pos2 r1 r2 budget : Nat} (h : pmeasure L pos r1 < budget + 1)
    (hp : pos < pos2) (hp2 : pos2 ≤ L) (hr : r2 ≤ 15) : pmeasure L pos2 r2 < budget := by
  unfold pmeasure at h ⊢
  omega

/-- Well-behavedness of a sequenced parser level: a strict sub-parser
followed by a loop continuation (the shape shared by the six binary
precedence levels). -/
theorem goodS_of_seq {α β : Type} (L budget rlevel rsub rloop : Nat)
    (sub : Nat → PRes α) (loop : α → Nat → PRes β)
    (hsub : GoodS L budget rsub sub) (hloop : ∀ left, GoodL L budget rloop (loop left))
    (hr1 : rsub < rlevel) (hr2 : rloop ≤ 15) :
    GoodS L (budget + 1) rlevel (fun pos => pbind (sub pos) loop) := by
  intro pos
  dsimp only
  cases hm : sub pos with
  | timeout =>
    refine ⟨fun hb => absurd hm ((hsub pos).1 (pm_lt hb hr1)), ?_⟩
    intro a pos' h
    simp [pbind] at h
  | fail e =>
    exact ⟨fun _ => by simp [pbind], fun a pos' h => by simp [pbind] at h⟩
  | ok left pos1 =>
    obtain ⟨hp1, hp2⟩ := (hsub pos).2 left pos1 hm
    simp only [pbind]
    refine ⟨fun hb => (hloop left pos1).1 (pm_adv hb hp1 hp2 hr2), ?_⟩
    intro a pos' h
    obtain ⟨hq1, hq2⟩ := (hloop left pos1).2 a pos' h
    omega

/-- Well-behavedness of a binary-level operator loop: while the guard holds
(which implies the cursor is on a real token), parse the next operand with
the strict sub-parser one level down and continue with the previous fuel
level's loop; otherwise exit at the current position. -/
theorem goodL_of_loop {α : Type} (L budget rloop rsub : Nat) (cond : Nat → Prop)
    [DecidablePred cond] (sub : Nat → PRes α) (mk : Nat → α → α → α)
    (loopRec : α → Nat → PRes α)
    (hcond : ∀ pos, cond pos → pos < L)
    (hsub : GoodS L budget rsub sub) (hrec : ∀ left, GoodL L budget rloop (loopRec left))
    (hrs : rsub ≤ 15) (hrl : rloop ≤ 15) :
    ∀ left, GoodL L (budget + 1) rloop (fun pos =>
      if cond pos then
        pbind (sub (pos + 1)) (fun right pos2 => loopRec (mk pos left right) pos2)
      else .ok left pos) := by
  intro left pos
  dsimp only
  by_cases hg : cond pos
  · have hpL : pos < L := hcond pos hg
    rw [if_pos hg]
    cases hm : sub (pos + 1) with
    | timeout =>
      refine ⟨fun hb => absurd hm ((hsub (pos + 1)).1 (pm_adv hb (by omega) (by omega) hrs)), ?_⟩
      intro a pos' h
      simp [pbind] at h
    | fail e =>
      exact ⟨fun _ => by simp [pbind], fun a pos' h => by simp [pbind] at h⟩
    | ok right pos2 =>
      obtain ⟨hp1, hp2⟩ := (hsub (pos + 1)).2 right pos2 hm
      simp only [pbind]
      refine ⟨fun hb => (hrec (mk pos left right) pos2).1 (pm_adv hb (by omega) hp2 hrl), ?_⟩
      intro a pos' h
      obtain ⟨hq1, hq2⟩ := (hrec (mk pos left right) pos2).2 a pos' h
      constructor
      · omega
      · have : pos2 ≤ L := hp2
        omega
  · rw [if_neg hg]
    refine ⟨fun _ => by simp, ?_⟩
    intro a pos' h
    cases h
    constructor
    · exact le_refl pos
    · exact le_max_left pos L

/-- One fuel level preserves well-behavedness of the expression bundle: every
call edge in `exprParsersStep` either advances the position into the token
list or drops to a routine of smaller rank. -/
theorem exprParsersStep_good (tokens : List Token) (budget : Nat) (prev : ExprParsers)
    (hprev : ExprParsersGood tokens.length budget prev) :
    ExprParsersGood tokens.length (budget + 1) (exprParsersStep tokens prev) := by
  obtain ⟨hE, hOr, hOrL, hAnd, hAndL, hEq, hEqL, hCmp, hCmpL, hTerm, hTermL, hFac, hFacL,
    hUn, hPrim, hCall, hArg⟩ := hprev
  refine ⟨?_, ?_, ?_, ?_, ?_, ?_, ?_, ?_, ?_, ?_, ?_, ?_, ?_, ?_, ?_, ?_, ?_⟩
  · -- pExpression (rank 9) delegates to pLogicalOr (rank 8) at the same position
    intro pos
    dsimp only [exprParsersStep]
    exact ⟨fun hb => (hOr pos).1 (pm_lt hb (by omega)), fun a pos' h => (hOr pos).2 a pos' h⟩
  · -- pLogicalOr (rank 8) = pLogicalAnd (rank 7) then pOrLoop (rank 8)
    dsimp only [exprParsersStep]
    exact goodS_of_seq tokens.length budget 8 7 8 prev.pLogicalAnd prev.pOrLoop hAnd hOrL
      (by omega) (by omega)
  · -- pOrLoop (rank 8) over pLogicalAnd (rank 7)
    dsimp only [exprParsersStep]
    exact goodL_of_loop tokens.length budget 8 7
      (fun pos => (currentTok tokens pos).type = .orOp) prev.pLogicalAnd
      (fun pos left right => .binary left (currentTok tokens pos).value right) prev.pOrLoop
      (fun pos h => currentTok_lt_length (by simp [h]))
      hAnd hOrL (by omega) (by omega)
  · -- pLogicalAnd (rank 7) = pEquality (rank 6) then pAndLoop (rank 7)
    dsimp only [exprParsersStep]
    exact goodS_of_seq tokens.length budget 7 6 7 prev.pEquality prev.pAndLoop hEq hAndL
      (by omega) (by omega)
  · -- pAndLoop (rank 7) over pEquality (rank 6)
    dsimp only [exprParsersStep]
    exact goodL_of_loop tokens.length budget 7 6
      (fun pos => (currentTok tokens pos).type = .andOp) prev.pEquality
      (fun pos left right => .binary left (currentTok tokens pos).value right) prev.pAndLoop
      (fun pos h => currentTok_lt_length (by simp [h]))
      hEq hAndL (by omega) (by omega)
  · -- pEquality (rank 6) = pComparison (rank 5) then pEqLoop (rank 6)
    dsimp only [exprParsersStep]
    exact goodS_of_seq tokens.length budget 6 5 6 prev.pComparison prev.pEqLoop hCmp hEqL
      (by omega) (by omega)
  · -- pEqLoop (rank 6) over pComparison (rank 5)
    dsimp only [exprParsersStep]
    exact goodL_of_loop tokens.length budget 6 5
      (fun pos => (currentTok tokens pos).type = .equal ∨ (currentTok tokens pos).type = .notEqual)
      prev.pComparison
      (fun pos left right => .binary left (currentTok tokens pos).value right) prev.pEqLoop
      (fun pos h => by rcases h with h | h <;> exact currentTok_lt_length (by simp [h]))
      hCmp hEqL (by omega) (by omega)
  · -- pComparison (rank 5) = pTerm (rank 4) then pCmpLoop (rank 5)
    dsimp only [exprParsersStep]
    exact goodS_of_seq tokens.length budget 5 4 5 prev.pTerm prev.pCmpLoop hTerm hCmpL
      (by omega) (by omega)
  · -- pCmpLoop (rank 5) over pTerm (rank 4)
    dsimp only [exprParsersStep]
    exact goodL_of_loop tokens.length budget 5 4
      (fun pos => (currentTok tokens pos).type = .lessThan ∨
        (currentTok tokens pos).type = .lessEqual ∨
        (currentTok tokens pos).type = .greaterThan ∨
        (currentTok tokens pos).type = .greaterEqual)
      prev.pTerm
      (fun pos left right => .binary left (currentTok tokens pos).value right) prev.pCmpLoop
      (fun pos h => by rcases h with h | h | h | h <;> exact currentTok_lt_length (by simp [h]))
      hTerm hCmpL (by omega) (by omega)
  · -- pTerm (rank 4) = pFactor (rank 3) then pTermLoop (rank 4)
    dsimp only [exprParsersStep]
    exact goodS_of_seq tokens.length budget 4 3 4 prev.pFactor prev.pTermLoop hFac hTermL
      (by omega) (by omega)
  · -- pTermLoop (rank 4) over pFactor (rank 3)
    dsimp only [exprParsersStep]
    exact goodL_of_loop tokens.length budget 4 3
      (fun pos => (currentTok tokens pos).type = .plus ∨ (currentTok tokens pos).type = .minus)
      prev.pFactor
      (fun pos left right => .binary left (currentTok tokens pos).value right) prev.pTermLoop
      (fun pos h => by rcases h with h | h <;> exact currentTok_lt_length (by simp [h]))
      hFac hTermL (by omega) (by omega)
  · -- pFactor (rank 3) = pUnary (rank 2) then pFactorLoop (rank 3)
    dsimp only [exprParsersStep]
    exact goodS_of_seq tokens.length budget 3 2 3 prev.pUnary prev.pFactorLoop hUn hFacL
      (by omega) (by omega)
  · -- pFactorLoop (rank 3) over pUnary (rank 2)
    dsimp only [exprParsersStep]
    exact goodL_of_loop tokens.length budget 3 2
      (fun pos => (currentTok tokens pos).type = .multiply ∨
        (currentTok tokens pos).type = .divide)
      prev.pUnary
      (fun pos left right => .binary left (currentTok tokens pos).value right) prev.pFactorLoop
      (fun pos h => by rcases h with h | h <;> exact currentTok_lt_length (by simp [h]))
      hUn hFacL (by omega) (by omega)
  · -- pUnary (rank 2): prefix operator recursion or pPrimary (rank 1)
    intro pos
    dsimp only [exprParsersStep]
    by_cases hg : (currentTok tokens pos).type = .minus ∨ (currentTok tokens pos).type = .notOp
    · have hpL : pos < tokens.length := by
        rcases hg with h | h <;> exact currentTok_lt_length (by simp [h])
      rw [if_pos hg]
      cases hm : prev.pUnary (pos + 1) with
      | timeout =>
        refine ⟨fun hb =>
          absurd hm ((hUn (pos + 1)).1 (pm_adv hb (by omega) (by omega) (by omega))), ?_⟩
        intro a pos' h
        simp [pbind] at h
      | fail e => exact ⟨fun _ => by simp [pbind], fun a pos' h => by simp [pbind] at h⟩
      | ok operand pos1 =>
        obtain ⟨hp1, hp2⟩ := (hUn (pos + 1)).2 operand pos1 hm
        simp only [pbind]
        refine ⟨fun _ => by simp, ?_⟩
        intro a pos' h
        cases h
        exact ⟨by omega, hp2⟩
    · rw [if_neg hg]
      exact ⟨fun hb => (hPrim pos).1 (pm_lt hb (by omega)), (hPrim pos).2⟩
  · -- pPrimary (rank 1): literals / identifier / call / parenthesised expression
    intro pos
    dsimp only [exprParsersStep]
    split
    next ht =>
      have hpL : pos < tokens.length := currentTok_lt_length (by simp [ht])
      exact ⟨fun _ => by simp, fun a pos' h => by cases h; omega⟩
    next ht =>
      have hpL : pos < tokens.length := currentTok_lt_length (by simp [ht])
      exact ⟨fun _ => by simp, fun a pos' h => by cases h; omega⟩
    next ht =>
      have hpL : pos < tokens.length := currentTok_lt_length (by simp [ht])
      exact ⟨fun _ => by simp, fun a pos' h => by cases h; omega⟩
    next ht =>
      have hpL : pos < tokens.length := currentTok_lt_length (by simp [ht])
      by_cases hg : (currentTok tokens (pos + 1)).type = .leftParen
      · rw [if_pos hg]
        refine ⟨fun hb =>
          ((hCall (currentTok tokens pos).value) (pos + 1)).1
            (pm_adv hb (by omega) (by omega) (by omega)), ?_⟩
        intro a pos' h
        obtain ⟨h1, h2⟩ := ((hCall (currentTok tokens pos).value) (pos + 1)).2 a pos' h
        exact ⟨by omega, h2⟩
      · rw [if_neg hg]
        exact ⟨fun _ => by simp, fun a pos' h => by cases h; omega⟩
    next ht =>
      have hpL : pos < tokens.length := currentTok_lt_length (by simp [ht])
      cases hm : prev.pExpression (pos + 1) with
      | timeout =>
        refine ⟨fun hb =>
          absurd hm ((hE (pos + 1)).1 (pm_adv hb (by omega) (by omega) (by omega))), ?_⟩
        intro a pos' h
        simp [pbind] at h
      | fail e => exact ⟨fun _ => by simp [pbind], fun a pos' h => by simp [pbind] at h⟩
      | ok expr pos1 =>
        obtain ⟨hp1, hp2⟩ := (hE (pos + 1)).2 expr pos1 hm
        simp only [pbind]
        by_cases hr : (currentTok tokens pos1).type = .rightParen
        · rw [if_pos hr]
          have hq : pos1 < tokens.length := currentTok_lt_length (by simp [hr])
          exact ⟨fun _ => by simp, fun a pos' h => by cases h; omega⟩
        · rw [if_neg hr]
          exact ⟨fun _ => by simp, fun a pos' h => by simp at h⟩
    next =>
      exact ⟨fun _ => by simp, fun a pos' h => by simp at h⟩
  · -- pFunctionCall (rank 11): argument loop (rank 10) after consuming `(`
    intro name pos
    dsimp only [exprParsersStep]
    cases hm : prev.pArgLoop (pos + 1) [] with
    | timeout =>
      refine ⟨fun hb => absurd hm ((hArg [] (pos + 1)).1 (pm_step hb (by omega))), ?_⟩
      intro a pos' h
      simp [pbind] at h
    | fail e => exact ⟨fun _ => by simp [pbind], fun a pos' h => by simp [pbind] at h⟩
    | ok args pos1 =>
      obtain ⟨hp1, hp2⟩ := (hArg [] (pos + 1)).2 args pos1 hm
      simp only [pbind]
      by_cases hr : (currentTok tokens pos1).type = .rightParen
      · rw [if_pos hr]
        have hq : pos1 < tokens.length := currentTok_lt_length (by simp [hr])
        exact ⟨fun _ => by simp, fun a pos' h => by cases h; omega⟩
      · rw [if_neg hr]
        exact ⟨fun _ => by simp, fun a pos' h => by simp at h⟩
  · -- pArgLoop (rank 10): exit at `)`, else an expression (rank 9, comma-prefixed
    -- after the first argument) and the previous level's loop
    intro acc pos
    dsimp only [exprParsersStep]
    by_cases hr : (currentTok tokens pos).type = .rightParen
    · rw [if_pos hr]
      exact ⟨fun _ => by simp, fun a pos' h => by cases h; exact ⟨le_refl _, le_max_left _ _⟩⟩
    · rw [if_neg hr]
      cases acc with
      | nil =>
        cases hm : prev.pExpression pos with
        | timeout =>
          refine ⟨fun hb => absurd hm ((hE pos).1 (pm_lt hb (by omega))), ?_⟩
          intro a pos' h
          simp [pbind] at h
        | fail e => exact ⟨fun _ => by simp [pbind], fun a pos' h => by simp [pbind] at h⟩
        | ok arg pos2 =>
          obtain ⟨hp1, hp2⟩ := (hE pos).2 arg pos2 hm
          simp only [pbind]
          refine ⟨fun hb => (hArg ([] ++ [arg]) pos2).1 (pm_adv hb hp1 hp2 (by omega)), ?_⟩
          intro a pos' h
          obtain ⟨hq1, hq2⟩ := (hArg ([] ++ [arg]) pos2).2 a pos' h
          exact ⟨by omega, by omega⟩
      | cons a0 rest =>
        by_cases hc : (currentTok tokens pos).type = .comma
        · rw [if_pos hc]
          have hpL : pos < tokens.length := currentTok_lt_length (by simp [hc])
          cases hm : prev.pExpression (pos + 1) with
          | timeout =>
            refine ⟨fun hb =>
              absurd hm ((hE (pos + 1)).1 (pm_adv hb (by omega) (by omega) (by omega))), ?_⟩
            intro a pos' h
            simp [pbind] at h
          | fail e => exact ⟨fun _ => by simp [pbind], fun a pos' h => by simp [pbind] at h⟩
          | ok arg pos2 =>
            obtain ⟨hp1, hp2⟩ := (hE (pos + 1)).2 arg pos2 hm
            simp only [pbind]
            refine ⟨fun hb =>
              (hArg ((a0 :: rest) ++ [arg]) pos2).1 (pm_adv hb (by omega) hp2 (by omega)), ?_⟩
            intro a pos' h
            obtain ⟨hq1, hq2⟩ := (hArg ((a0 :: rest) ++ [arg]) pos2).2 a pos' h
            exact ⟨by omega, by omega⟩
        · rw [if_neg hc]
          exact ⟨fun _ => by simp, fun a pos' h => by simp at h⟩

theorem pm_adv' {L pos pos2 r1 r2 budget : Nat} (h : pmeasure L pos r1 < budget + 1)
    (hp : pos < pos2) (hr : r2 ≤ 15) (hL : pos < L) : pmeasure L pos2 r2 < budget := by
  unfold pmeasure at h ⊢
  omega

theorem commaAdjust_le {tokens : List Token} {pos : Nat} {first : Bool} {pos1 : Nat}
    (h : commaAdjust tokens pos first = .ok pos1) : pos ≤ pos1 ∧ pos1 ≤ pos + 1 := by
  unfold commaAdjust at h
  by_cases hf : first = true
  · rw [if_pos hf] at h
    cases h
    omega
  · rw [if_neg hf] at h
    by_cases hc : (currentTok tokens pos).type = .comma
    · rw [if_pos hc] at h
      cases h
      omega
    · rw [if_neg hc] at h
      simp at h

/-- Well-behavedness of a terminator-guarded statement loop (the shape shared
by `pThenLoop`, `pBodyLoop` and the program loop of `Parse`): exit at a
terminator token, otherwise parse one statement with the strict sub-parser
and recurse through the previous fuel level. -/
theorem goodL_of_stmts {α : Type} (L budget rloop rsub : Nat) (stop : Nat → Prop)
    [DecidablePred stop] (sub : Nat → PRes α)
    (loopRec : Nat → List α → PRes (List α))
    (hsub : GoodS L budget rsub sub)
    (hrec : ∀ acc, GoodL L budget rloop (fun pos => loopRec pos acc))
    (hrs : rsub < rloop) (hrl : rloop ≤ 15) :
    ∀ acc, GoodL L (budget + 1) rloop (fun pos =>
      if stop pos then .ok acc pos
      else pbind (sub pos) (fun stmt pos1 => loopRec pos1 (acc ++ [stmt]))) := by
  intro acc pos
  dsimp only
  by_cases hg : stop pos
  · rw [if_pos hg]
    exact ⟨fun _ => by simp, fun a pos' h => by cases h; exact ⟨le_refl _, le_max_left _ _⟩⟩
  · rw [if_neg hg]
    cases hm : sub pos with
    | timeout =>
      refine ⟨fun hb => absurd hm ((hsub pos).1 (pm_lt hb hrs)), ?_⟩
      intro a pos' h
      simp [pbind] at h
    | fail e => exact ⟨fun _ => by simp [pbind], fun a pos' h => by simp [pbind] at h⟩
    | ok stmt pos1 =>
      obtain ⟨hp1, hp2⟩ := (hsub pos).2 stmt pos1 hm
      simp only [pbind]
      refine ⟨fun hb => (hrec (acc ++ [stmt]) pos1).1 (pm_adv hb hp1 hp2 hrl), ?_⟩
      intro a pos' h
      obtain ⟨hq1, hq2⟩ := (hrec (acc ++ [stmt]) pos1).2 a pos' h
      exact ⟨by omega, by omega⟩

/-- One fuel level preserves well-behavedness of the statement bundle; the
expression-parser calls inside use the fuel one level down, covered by the
`hexpr` hypothesis. -/
theorem stmtParsersStep_good (tokens : List Token) (budget : Nat) (prev : StmtParsers)
    (hexpr : ExprParsersGood tokens.length budget (exprParsers tokens budget))
    (hprev : StmtParsersGood tokens.length budget prev) :
    StmtParsersGood tokens.length (budget + 1) (stmtParsersStep tokens budget prev) := by
  obtain ⟨hE, _, _, _, _, _, _, _, _, _, _, _, _, _, _, _, _⟩ := hexpr
  obtain ⟨hStmt, hVar, hAsn, hIf, hThen, hBody, hLoop, hFun, hParam, hPrint, hES⟩ := hprev
  refine ⟨?_, ?_, ?_, ?_, ?_, ?_, ?_, ?_, ?_, ?_, ?_⟩
  · -- pStatement (rank 11) dispatches to the per-form parsers (rank 10)
    intro pos
    dsimp only [stmtParsersStep]
    split
    next => exact ⟨fun hb => (hVar pos).1 (pm_lt hb (by omega)), (hVar pos).2⟩
    next => exact ⟨fun hb => (hVar pos).1 (pm_lt hb (by omega)), (hVar pos).2⟩
    next => exact ⟨fun hb => (hVar pos).1 (pm_lt hb (by omega)), (hVar pos).2⟩
    next =>
      by_cases hp : (peekTok tokens pos).type = .assign
      · rw [if_pos hp]
        exact ⟨fun hb => (hAsn pos).1 (pm_lt hb (by omega)), (hAsn pos).2⟩
      · rw [if_neg hp]
        exact ⟨fun hb => (hES pos).1 (pm_lt hb (by omega)), (hES pos).2⟩
    next => exact ⟨fun hb => (hIf pos).1 (pm_lt hb (by omega)), (hIf pos).2⟩
    next => exact ⟨fun hb => (hLoop pos).1 (pm_lt hb (by omega)), (hLoop pos).2⟩
    next => exact ⟨fun hb => (hFun pos).1 (pm_lt hb (by omega)), (hFun pos).2⟩
    next => exact ⟨fun hb => (hPrint pos).1 (pm_lt hb (by omega)), (hPrint pos).2⟩
    next => exact ⟨fun _ => by simp, fun a pos' h => by simp at h⟩
  · -- pVariableDeclaration (rank 10): TYPE IDENT `=` expression
    intro pos
    dsimp only [stmtParsersStep]
    by_cases h1 : (currentTok tokens (pos + 1)).type = .identifier
    · rw [if_pos h1]
      by_cases h2 : (currentTok tokens (pos + 2)).type = .assign
      · rw [if_pos h2]
        have hpL : pos + 2 < tokens.length := currentTok_lt_length (by simp [h2])
        cases hm : parseExpression tokens budget (pos + 3) with
        | timeout =>
          refine ⟨fun hb =>
            absurd hm ((hE (pos + 3)).1 (pm_adv hb (by omega) (by omega) (by omega))), ?_⟩
          intro a pos' h
          simp [pbind] at h
        | fail e => exact ⟨fun _ => by simp [pbind], fun a pos' h => by simp [pbind] at h⟩
        | ok value pos3 =>
          obtain ⟨hp1, hp2⟩ := (hE (pos + 3)).2 value pos3 hm
          simp only [pbind]
          cases typeFromString (currentTok tokens pos).value with
          | ok varType =>
            exact ⟨fun _ => by simp, fun a pos' h => by cases h; exact ⟨by omega, hp2⟩⟩
          | error e => exact ⟨fun _ => by simp, fun a pos' h => by simp at h⟩
      · rw [if_neg h2]
        exact ⟨fun _ => by simp, fun a pos' h => by simp at h⟩
    · rw [if_neg h1]
      exact ⟨fun _ => by simp, fun a pos' h => by simp at h⟩
  · -- pAssignment (rank 10): IDENT `=` expression
    intro pos
    dsimp only [stmtParsersStep]
    by_cases h1 : (currentTok tokens (pos + 1)).type = .assign
    · rw [if_pos h1]
      have hpL : pos + 1 < tokens.length := currentTok_lt_length (by simp [h1])
      cases hm : parseExpression tokens budget (pos + 2) with
      | timeout =>
        refine ⟨fun hb =>
          absurd hm ((hE (pos + 2)).1 (pm_adv hb (by omega) (by omega) (by omega))), ?_⟩
        intro a pos' h
        simp [pbind] at h
      | fail e => exact ⟨fun _ => by simp [pbind], fun a pos' h => by simp [pbind] at h⟩
      | ok value pos2 =>
        obtain ⟨hp1, hp2⟩ := (hE (pos + 2)).2 value pos2 hm
        simp only [pbind]
        exact ⟨fun _ => by simp, fun a pos' h => by cases h; exact ⟨by omega, hp2⟩⟩
    · rw [if_neg h1]
      exact ⟨fun _ => by simp, fun a pos' h => by simp at h⟩
  · -- pIfStatement (rank 10): condition, then-loop, optional else-body, `end`
    intro pos
    dsimp only [stmtParsersStep]
    cases hm : parseExpression tokens budget (pos + 1) with
    | timeout =>
      refine ⟨fun hb => absurd hm ((hE (pos + 1)).1 (pm_step hb (by omega))), ?_⟩
      intro a pos' h
      simp [pbind] at h
    | fail e => exact ⟨fun _ => by simp [pbind], fun a pos' h => by simp [pbind] at h⟩
    | ok condition pos1 =>
      obtain ⟨hp1, hp2⟩ := (hE (pos + 1)).2 condition pos1 hm
      simp only [pbind]
      by_cases ht : (currentTok tokens pos1).type = .kwThen
      · rw [if_pos ht]
        have h1L : pos1 < tokens.length := currentTok_lt_length (by simp [ht])
        cases hm2 : prev.pThenLoop (pos1 + 1) [] with
        | timeout =>
          refine ⟨fun hb =>
            absurd hm2 ((hThen [] (pos1 + 1)).1 (pm_adv hb (by omega) (by omega) (by omega))), ?_⟩
          intro a pos' h
          simp [pbind] at h
        | fail e => exact ⟨fun _ => by simp [pbind], fun a pos' h => by simp [pbind] at h⟩
        | ok thenBody pos2 =>
          obtain ⟨hq1, hq2⟩ := (hThen [] (pos1 + 1)).2 thenBody pos2 hm2
          simp only [pbind]
          by_cases he : (currentTok tokens pos2).type = .kwElse
          · rw [if_pos he]
            have h2L : pos2 < tokens.length := currentTok_lt_length (by simp [he])
            cases hm3 : prev.pBodyLoop (pos2 + 1) [] with
            | timeout =>
              refine ⟨fun hb =>
                absurd hm3
                  ((hBody [] (pos2 + 1)).1 (pm_adv hb (by omega) (by omega) (by omega))), ?_⟩
              intro a pos' h
              simp [pbind] at h
            | fail e => exact ⟨fun _ => by simp [pbind], fun a pos' h => by simp [pbind] at h⟩
            | ok elseBody pos3 =>
              obtain ⟨hr1, hr2⟩ := (hBody [] (pos2 + 1)).2 elseBody pos3 hm3
              simp only [pbind]
              by_cases hk : (currentTok tokens pos3).type = .kwEnd
              · rw [if_pos hk]
                have h3L : pos3 < tokens.length := currentTok_lt_length (by simp [hk])
                exact ⟨fun _ => by simp, fun a pos' h => by cases h; omega⟩
              · rw [if_neg hk]
                exact ⟨fun _ => by simp, fun a pos' h => by simp at h⟩
          · rw [if_neg he]
            by_cases hk : (currentTok tokens pos2).type = .kwEnd
            · rw [if_pos hk]
              have h2L : pos2 < tokens.length := currentTok_lt_length (by simp [hk])
              exact ⟨fun _ => by simp, fun a pos' h => by cases h; omega⟩
            · rw [if_neg hk]
              exact ⟨fun _ => by simp, fun a pos' h => by simp at h⟩
      · rw [if_neg ht]
        exact ⟨fun _ => by simp, fun a pos' h => by simp at h⟩
  · -- pThenLoop (rank 12) over pStatement (rank 11)
    dsimp only [stmtParsersStep]
    exact goodL_of_stmts tokens.length budget 12 11
      (fun pos => (currentTok tokens pos).type = .kwElse ∨
        (currentTok tokens pos).type = .kwEnd ∨ (currentTok tokens pos).type = .eof)
      prev.pStatement prev.pThenLoop hStmt hThen (by omega) (by omega)
  · -- pBodyLoop (rank 12) over pStatement (rank 11)
    dsimp only [stmtParsersStep]
    exact goodL_of_stmts tokens.length budget 12 11
      (fun pos => (currentTok tokens pos).type = .kwEnd ∨ (currentTok tokens pos).type = .eof)
      prev.pStatement prev.pBodyLoop hStmt hBody (by omega) (by omega)
  · -- pLoopStatement (rank 10): `loop` IDENT `from` e `to` e body `end`
    intro pos
    dsimp only [stmtParsersStep]
    by_cases h1 : (currentTok tokens (pos + 1)).type = .identifier
    · rw [if_pos h1]
      by_cases h2 : (currentTok tokens (pos + 2)).type = .kwFrom
      · rw [if_pos h2]
        have hpL : pos + 2 < tokens.length := currentTok_lt_length (by simp [h2])
        cases hm : parseExpression tokens budget (pos + 3) with
        | timeout =>
          refine ⟨fun hb =>
            absurd hm ((hE (pos + 3)).1 (pm_adv hb (by omega) (by omega) (by omega))), ?_⟩
          intro a pos' h
          simp [pbind] at h
        | fail e => exact ⟨fun _ => by simp [pbind], fun a pos' h => by simp [pbind] at h⟩
        | ok fromExpr pos1 =>
          obtain ⟨hp1, hp2⟩ := (hE (pos + 3)).2 fromExpr pos1 hm
          simp only [pbind]
          by_cases ht : (currentTok tokens pos1).type = .kwTo
          · rw [if_pos ht]
            have h1L : pos1 < tokens.length := currentTok_lt_length (by simp [ht])
            cases hm2 : parseExpression tokens budget (pos1 + 1) with
            | timeout =>
              refine ⟨fun hb =>
                absurd hm2
                  ((hE (pos1 + 1)).1 (pm_adv hb (by omega) (by omega) (by omega))), ?_⟩
              intro a pos' h
              simp [pbind] at h
            | fail e => exact ⟨fun _ => by simp [pbind], fun a pos' h => by simp [pbind] at h⟩
            | ok toExpr pos2 =>
              obtain ⟨hq1, hq2⟩ := (hE (pos1 + 1)).2 toExpr pos2 hm2
              simp only [pbind]
              cases hm3 : prev.pBodyLoop pos2 [] with
              | timeout =>
                refine ⟨fun hb =>
                  absurd hm3 ((hBody [] pos2).1 (pm_adv hb (by omega) (by omega) (by omega))), ?_⟩
                intro a pos' h
                simp [pbind] at h
              | fail e => exact ⟨fun _ => by simp [pbind], fun a pos' h => by simp [pbind] at h⟩
              | ok body pos3 =>
                obtain ⟨hr1, hr2⟩ := (hBody [] pos2).2 body pos3 hm3
                simp only [pbind]
                by_cases hk : (currentTok tokens pos3).type = .kwEnd
                · rw [if_pos hk]
                  have h3L : pos3 < tokens.length := currentTok_lt_length (by simp [hk])
                  exact ⟨fun _ => by simp, fun a pos' h => by cases h; omega⟩
                · rw [if_neg hk]
                  exact ⟨fun _ => by simp, fun a pos' h => by simp at h⟩
          · rw [if_neg ht]
            exact ⟨fun _ => by simp, fun a pos' h => by simp at h⟩
      · rw [if_neg h2]
        exact ⟨fun _ => by simp, fun a pos' h => by simp at h⟩
    · rw [if_neg h1]
      exact ⟨fun _ => by simp, fun a pos' h => by simp at h⟩
  · -- pFunctionDeclaration (rank 10): name, `(` params `)`, body, `end`
    intro pos
    dsimp only [stmtParsersStep]
    by_cases h1 : (currentTok tokens (pos + 1)).type = .identifier
    · rw [if_pos h1]
      by_cases h2 : (currentTok tokens (pos + 2)).type = .leftParen
      · rw [if_pos h2]
        have hpL : pos + 2 < tokens.length := currentTok_lt_length (by simp [h2])
        cases hm : prev.pParamLoop (pos + 3) [] with
        | timeout =>
          refine ⟨fun hb =>
            absurd hm ((hParam [] (pos + 3)).1 (pm_adv hb (by omega) (by omega) (by omega))), ?_⟩
          intro a pos' h
          simp [pbind] at h
        | fail e => exact ⟨fun _ => by simp [pbind], fun a pos' h => by simp [pbind] at h⟩
        | ok params pos1 =>
          obtain ⟨hp1, hp2⟩ := (hParam [] (pos + 3)).2 params pos1 hm
          simp only [pbind]
          cases hm2 : prev.pBodyLoop (pos1 + 1) [] with
          | timeout =>
            refine ⟨fun hb =>
              absurd hm2 ((hBody [] (pos1 + 1)).1 (pm_adv' hb (by omega) (by omega) (by omega))), ?_⟩
            intro a pos' h
            simp [pbind] at h
          | fail e => exact ⟨fun _ => by simp [pbind], fun a pos' h => by simp [pbind] at h⟩
          | ok body pos2 =>
            obtain ⟨hq1, hq2⟩ := (hBody [] (pos1 + 1)).2 body pos2 hm2
            simp only [pbind]
            by_cases hk : (currentTok tokens pos2).type = .kwEnd
            · rw [if_pos hk]
              have h2L : pos2 < tokens.length := currentTok_lt_length (by simp [hk])
              exact ⟨fun _ => by simp, fun a pos' h => by cases h; omega⟩
            · rw [if_neg hk]
              exact ⟨fun _ => by simp, fun a pos' h => by simp at h⟩
      · rw [if_neg h2]
        exact ⟨fun _ => by simp, fun a pos' h => by simp at h⟩
    · rw [if_neg h1]
      exact ⟨fun _ => by simp, fun a pos' h => by simp at h⟩
  · -- pParamLoop (rank 10): exit at `)`, else comma adjustment, a typed
    -- parameter, and the previous level's loop two tokens further on
    intro acc pos
    dsimp only [stmtParsersStep]
    by_cases hr : (currentTok tokens pos).type = .rightParen
    · rw [if_pos hr]
      exact ⟨fun _ => by simp, fun a pos' h => by cases h; exact ⟨le_refl _, le_max_left _ _⟩⟩
    · rw [if_neg hr]
      cases hca : commaAdjust tokens pos acc.isEmpty with
      | error e => exact ⟨fun _ => by simp, fun a pos' h => by simp at h⟩
      | ok pos1 =>
        obtain ⟨hc1, hc2⟩ := commaAdjust_le hca
        dsimp only
        by_cases hty : (currentTok tokens pos1).type = .numberKeyword ∨
          (currentTok tokens pos1).type = .textKeyword ∨
          (currentTok tokens pos1).type = .booleanKeyword
        · rw [if_pos hty]
          have h1L : pos1 < tokens.length := by
            rcases hty with h | h | h <;> exact currentTok_lt_length (by simp [h])
          cases typeFromString (currentTok tokens pos1).value with
          | error e => exact ⟨fun _ => by simp, fun a pos' h => by simp at h⟩
          | ok paramType =>
            dsimp only
            by_cases hid : (currentTok tokens (pos1 + 1)).type = .identifier
            · rw [if_pos hid]
              have h2L : pos1 + 1 < tokens.length := currentTok_lt_length (by simp [hid])
              refine ⟨fun hb =>
                (hParam (acc ++ [⟨(currentTok tokens (pos1 + 1)).value, paramType⟩])
                  (pos1 + 2)).1 (pm_adv hb (by omega) (by omega) (by omega)), ?_⟩
              intro a pos' h
              obtain ⟨hq1, hq2⟩ :=
                (hParam (acc ++ [⟨(currentTok tokens (pos1 + 1)).value, paramType⟩])
                  (pos1 + 2)).2 a pos' h
              exact ⟨by omega, by omega⟩
            · rw [if_neg hid]
              exact ⟨fun _ => by simp, fun a pos' h => by simp at h⟩
        · rw [if_neg hty]
          exact ⟨fun _ => by simp, fun a pos' h => by simp at h⟩
  · -- pPrintStatement (rank 10): `print` expression
    intro pos
    dsimp only [stmtParsersStep]
    cases hm : parseExpression tokens budget (pos + 1) with
    | timeout =>
      refine ⟨fun hb => absurd hm ((hE (pos + 1)).1 (pm_step hb (by omega))), ?_⟩
      intro a pos' h
      simp [pbind] at h
    | fail e => exact ⟨fun _ => by simp [pbind], fun a pos' h => by simp [pbind] at h⟩
    | ok value pos1 =>
      obtain ⟨hp1, hp2⟩ := (hE (pos + 1)).2 value pos1 hm
      simp only [pbind]
      exact ⟨fun _ => by simp, fun a pos' h => by cases h; exact ⟨by omega, hp2⟩⟩
  · -- pExpressionStatement (rank 10): a bare expression (rank 9)
    intro pos
    dsimp only [stmtParsersStep]
    cases hm : parseExpression tokens budget pos with
    | timeout =>
      refine ⟨fun hb => absurd hm ((hE pos).1 (pm_lt hb (by omega))), ?_⟩
      intro a pos' h
      simp [pbind] at h
    | fail e => exact ⟨fun _ => by simp [pbind], fun a pos' h => by simp [pbind] at h⟩
    | ok expr pos1 =>
      obtain ⟨hp1, hp2⟩ := (hE pos).2 expr pos1 hm
      simp only [pbind]
      exact ⟨fun _ => by simp, fun a pos' h => by cases h; exact ⟨hp1, hp2⟩⟩

theorem exprParsers_zero (tokens : List Token) : exprParsers tokens 0 = exprParsersTimeout :=
  rfl

theorem stmtParsers_zero (tokens : List Token) : stmtParsers tokens 0 = stmtParsersTimeout :=
  rfl

/-- The expression bundle is well-behaved at every fuel level. -/
theorem exprParsers_good (tokens : List Token) :
    ∀ fuel, ExprParsersGood tokens.length fuel (exprParsers tokens fuel) := by
  intro fuel
  induction fuel with
  | zero =>
    refine ⟨?_, ?_, ?_, ?_, ?_, ?_, ?_, ?_, ?_, ?_, ?_, ?_, ?_, ?_, ?_, ?_, ?_⟩ <;>
      first
        | exact fun pos => ⟨fun hb => absurd hb (by omega),
            fun a pos' h => by simp [exprParsers_zero, exprParsersTimeout] at h⟩
        | exact fun x pos => ⟨fun hb => absurd hb (by omega),
            fun a pos' h => by simp [exprParsers_zero, exprParsersTimeout] at h⟩
  | succ n ih => exact exprParsersStep_good tokens n (exprParsers tokens n) ih

/-- The statement bundle is well-behaved at every fuel level. -/
theorem stmtParsers_good (tokens : List Token) :
    ∀ fuel, StmtParsersGood tokens.length fuel (stmtParsers tokens fuel) := by
  intro fuel
  induction fuel with
  | zero =>
    refine ⟨?_, ?_, ?_, ?_, ?_, ?_, ?_, ?_, ?_, ?_, ?_⟩ <;>
      first
        | exact fun pos => ⟨fun hb => absurd hb (by omega),
            fun a pos' h => by simp [stmtParsers_zero, stmtParsersTimeout] at h⟩
        | exact fun x pos => ⟨fun hb => absurd hb (by omega),
            fun a pos' h => by simp [stmtParsers_zero, stmtParsersTimeout] at h⟩
  | succ n ih =>
    exact stmtParsersStep_good tokens n (stmtParsers tokens n) (exprParsers_good tokens n) ih

/-- The statement loop of `Parse` is well-behaved at every fuel level. -/
theorem parseProgramLoop_good (tokens : List Token) :
    ∀ fuel acc, GoodL tokens.length fuel 13 (fun pos => parseProgramLoop tokens fuel pos acc) := by
  intro fuel
  induction fuel with
  | zero =>
    exact fun acc pos => ⟨fun hb => absurd hb (by omega),
      fun a pos' h => by simp [parseProgramLoop] at h⟩
  | succ n ih =>
    intro acc
    exact goodL_of_stmts tokens.length n 13 11
      (fun pos => (currentTok tokens pos).type = .eof)
      (parseStatement tokens n) (parseProgramLoop tokens n)
      (stmtParsers_good tokens n).1 ih (by omega) (by omega) acc

/-- `Parse` never exhausts the fuel `parserFuel` supplies: it always returns
a program or a diagnostic. -/
theorem Parse_ne_timeout (tokens : List Token) : Parse tokens ≠ .timeout := by
  unfold Parse
  cases hm : parseProgramLoop tokens (parserFuel tokens) 0 [] with
  | ok stmts p => simp
  | fail e => simp
  | timeout =>
    exact absurd hm (((parseProgramLoop_good tokens (parserFuel tokens) []) 0).1
      (by unfold pmeasure parserFuel; omega))

/-- **C9.** The parser's `current` and `peek` accessors return the
synthesized end-of-input token whenever the position is at or past the end of
the token list (so `Parse` never indexes the list out of bounds), `Parse`
always terminates with either a program or a diagnostic (its fuel, an
artifact of the embedding, is never exhausted), and on a token list
containing only the end-of-input token `Parse` returns the empty program. -/
theorem parser_total_and_eof_safe :
    (∀ (tokens : List Token) (pos : Nat), tokens.length ≤ pos →
      currentTok tokens pos = zeroEofToken ∧ peekTok tokens pos = zeroEofToken) ∧
    (∀ tokens : List Token, Parse tokens ≠ .timeout) ∧
    Parse [⟨.eof, "", 1, 1, .null⟩] = .ok ⟨[]⟩ := by
  refine ⟨?_, Parse_ne_timeout, by rfl⟩
  intro tokens pos h
  constructor
  · unfold currentTok
    rw [if_pos h]
  · unfold peekTok
    rw [if_pos (by omega)]

theorem parser_total_and_eof_safe_witness :
    currentTok [zeroEofToken] 5 = zeroEofToken ∧ Parse [] ≠ .timeout :=
  ⟨(parser_total_and_eof_safe.1 [zeroEofToken] 5 (by decide)).1,
   parser_total_and_eof_safe.2.1 []⟩

end SimpleLang
